import Mathlib

/-!
Verification of the SmartOps invoice-reconciliation engine.

The development shallowly embeds the Python sources of the repository:
* `src/extract_invoice.py` — field extraction helpers (`_parse_amount`, the
  shape of the dictionary returned by `extract_invoice_fields`);
* `src/run_batch.py` — `_normalize_po`, `safe_float`, the extractor adapter,
  `load_po_register`, `process_invoice`;
* `src/run_batch_prod.py` — `_normalize_str_series`, `_append_to_history`,
  `_ensure_po_columns`, and the classification / duplicate-detection /
  budget-update passes of `run_batch_prod`.

Python strings are modelled as `List Char` (with `String` at the boundary),
Python floats as `ℚ` (every amount handled by the claims is exactly
representable), `None` as `Option.none`, raised exceptions as `Except`.
-/

set_option maxRecDepth 8000

attribute [local semireducible] Rat.add Rat.sub Rat.mul Rat.inv Rat.ofScientific

namespace SmartOps

/-! ### Python string primitives, modelled on lists of characters -/

/-- Characters stripped by Python's `str.strip()`. -/
def isPySpace (c : Char) : Bool :=
  c = ' ' || c = '\t' || c = '\n' || c = '\r' || c = '\x0b' || c = '\x0c'

/-- Python `str.strip()`. -/
def pyStrip (l : List Char) : List Char :=
  ((l.dropWhile isPySpace).reverse.dropWhile isPySpace).reverse

/-- Python `c in s` for a single character. -/
def hasChar (l : List Char) (c : Char) : Bool := l.any (· = c)

/-- Python `s.rfind(c)`: index of the last occurrence of `c`, `-1` if absent. -/
def rfindChar (l : List Char) (c : Char) : Int :=
  ((l.reverse.findIdx? (· = c)).map (fun (i : Nat) => (l.length : Int) - 1 - (i : Int))).getD (-1)

/-- Numeric value of a list of decimal digit characters (most significant first). -/
def digitsToNat (l : List Char) : Nat :=
  l.foldl (fun a c => 10 * a + (c.toNat - 48)) 0

/-- The rational denoted by an integer digit part `ip` and a fractional digit part `fp`. -/
def decVal (ip fp : List Char) : ℚ :=
  (digitsToNat ip : ℚ) + (digitsToNat fp : ℚ) / (10 : ℚ) ^ fp.length

/-- Python `float(s)` on an unsigned body drawn from the alphabet the amount
parsers can produce (digits, `.`, `-`): accepts `digits`, `digits.digits`,
`digits.` and `.digits`. -/
def pyFloatBody (body : List Char) : Option ℚ :=
  let ip := body.takeWhile Char.isDigit
  let rest := body.dropWhile Char.isDigit
  if rest = [] then
    if ip.isEmpty then none else some (digitsToNat ip : ℚ)
  else if rest.head? = some '.' ∧ rest.tail.all Char.isDigit ∧
      (¬ip.isEmpty ∨ ¬rest.tail.isEmpty) then
    some (decVal ip rest.tail)
  else none

/-- Python `float(s)`: an optional leading minus sign, then an unsigned body. -/
def pyFloat (l : List Char) : Option ℚ :=
  if l.head? = some '-' then (pyFloatBody l.tail).map (fun q => -q)
  else pyFloatBody l

/-- `drop_duplicates(keep="first")` keyed by `key`, with an accumulator of keys
already seen. -/
def dedupByKeyAux {α κ : Type} [DecidableEq κ] (key : α → κ) (seen : List κ) :
    List α → List α
  | [] => []
  | x :: xs =>
    if key x ∈ seen then dedupByKeyAux key seen xs
    else x :: dedupByKeyAux key (key x :: seen) xs

/-- `drop_duplicates(keep="first")` keyed by `key`: keeps the first row bearing
each key, in order. -/
def dedupByKey {α κ : Type} [DecidableEq κ] (key : α → κ) (l : List α) : List α :=
  dedupByKeyAux key [] l

/-! ### src/extract_invoice.py -/

/-- Characters kept by the first substitution of `_parse_amount`
(`re.sub(r"[^\d,.\- ]", "", s)`). -/
def keepAmountCharEI (c : Char) : Bool :=
  c.isDigit || c = ',' || c = '.' || c = '-' || c = ' '

/-- Python `s.replace(",", ".")` at the character level. -/
def commaToDot (c : Char) : Char := if c = ',' then '.' else c

/-- Embedding of `_parse_amount` (src/extract_invoice.py, lines 57-75):
strip, keep only digits, separators, minus and spaces, drop spaces; when both
`,` and `.` occur the one occurring last is the decimal point; when only `,`
occurs it is the decimal point; then `float(...)`, with failure as `none`. -/
def _parse_amount (raw : String) : Option ℚ :=
  if raw.data = [] then none
  else
    let s1 := ((pyStrip raw.data).filter keepAmountCharEI).filter (fun c => c ≠ ' ')
    let s2 :=
      if hasChar s1 ',' && hasChar s1 '.' then
        if rfindChar s1 ',' > rfindChar s1 '.' then
          (s1.filter (fun c => c ≠ '.')).map commaToDot
        else
          s1.filter (fun c => c ≠ ',')
      else if hasChar s1 ',' && !hasChar s1 '.' then
        s1.map commaToDot
      else s1
    pyFloat s2

/-! ### src/run_batch.py : scalar helpers -/

/-- Drop one trailing `".0"` (the `re.sub(r"\.0$", "", s)` of `_normalize_po`). -/
def stripDotZero (l : List Char) : List Char :=
  if l.reverse.take 2 = ['0', '.'] then l.take (l.length - 2) else l

/-- Embedding of `_normalize_po` (src/run_batch.py, lines 57-70). -/
def _normalize_po (x : Option String) : Option String :=
  match x with
  | none => none
  | some v =>
    let s := pyStrip v.data
    if s = [] then none
    else some (String.mk (stripDotZero s))

/-- Characters kept by the substitution of `safe_float`
(`re.sub(r"[^0-9,.\-]", "", s)`). -/
def keepAmountCharRB (c : Char) : Bool :=
  c.isDigit || c = ',' || c = '.' || c = '-'

/-- Embedding of `safe_float` (src/run_batch.py, lines 73-112). -/
def safe_float (x : Option String) : Option ℚ :=
  match x with
  | none => none
  | some v =>
    if pyStrip v.data = [] then none
    else
      let s1 := (pyStrip v.data).filter keepAmountCharRB
      if s1 = [] || s1 = ['-'] || s1 = ['.'] || s1 = [','] then none
      else
        let s2 :=
          if hasChar s1 ',' && hasChar s1 '.' then
            if rfindChar s1 ',' > rfindChar s1 '.' then
              (s1.filter (fun c => c ≠ '.')).map commaToDot
            else s1.filter (fun c => c ≠ ',')
          else
            if hasChar s1 ',' && !hasChar s1 '.' then
              (s1.filter (fun c => c ≠ '.')).map commaToDot
            else s1.filter (fun c => c ≠ ',')
        pyFloat s2

/-- A Lean string stripped as by Python `str.strip()`. -/
def pyStripStr (s : String) : String := String.mk (pyStrip s.data)

/-! ### src/run_batch_prod.py -/

/-- Elementwise embedding of `_normalize_str_series` (src/run_batch_prod.py,
lines 22-23): `fillna("").astype(str).str.strip()` on one cell. -/
def normCell (x : Option String) : String := pyStripStr (x.getD "")

/-- A row of the persisted invoice history (the history columns built at
src/run_batch_prod.py, lines 38-47). -/
structure HistoryRow where
  invoice_number : String
  po_number : String
  invoice_amount : Option ℚ
  file_name : String
  batch_id : String
  processed_at : String
deriving DecidableEq, Repr

/-- Embedding of `_append_to_history` (src/run_batch_prod.py, lines 50-63):
concatenate, normalize the `invoice_number` column, drop rows whose
normalized invoice number is empty, then
`drop_duplicates(subset=["invoice_number"], keep="first")`. -/
def _append_to_history (existing new_rows : List HistoryRow) : List HistoryRow :=
  let combined := existing ++ new_rows
  let normalized :=
    (combined.map (fun r => { r with invoice_number := pyStripStr r.invoice_number })).filter
      (fun r => r.invoice_number ≠ "")
  dedupByKey (fun r => r.invoice_number) normalized

/-- The `history_inv_set` of `run_batch_prod` (src/run_batch_prod.py,
lines 134-136), as a list used only through membership. -/
def historyInvSet (history_df : List HistoryRow) : List String :=
  history_df.map (fun r => pyStripStr r.invoice_number)

/-- A typed PO-ledger row, as produced by `_ensure_po_columns`. -/
structure PORow where
  PO_Number : String
  Total_PO_Value : ℚ
  Amount_Already_Invoiced : ℚ
  Remaining_Budget : ℚ
deriving DecidableEq, Repr

/-- A raw PO-register row as read from the spreadsheet; a `none` numeric cell
models what `pd.to_numeric(..., errors="coerce")` turns into `NaN`. -/
structure RawPORow where
  PO_Number : String
  Total_PO_Value : Option ℚ
  Amount_Already_Invoiced : Option ℚ
  Remaining_Budget : Option ℚ
deriving DecidableEq, Repr

/-- A raw PO-register frame: the sheet's column names plus its rows. A column
absent from `cols` counts as absent for every row. -/
structure POFrame where
  cols : List String
  rows : List RawPORow
deriving DecidableEq, Repr

/-- A numeric cell after `pd.to_numeric(..., errors="coerce").fillna(0.0)`,
for a column that is created all-zero when absent from the sheet
(src/run_batch_prod.py, lines 80-86). -/
def numCol (present : Bool) (cell : Option ℚ) : ℚ :=
  if present then cell.getD 0 else 0

/-- Embedding of `_ensure_po_columns` (src/run_batch_prod.py, lines 66-97):
trim the column names, require `PO_Number`, strip the PO numbers, coerce the
three numeric columns (creating absent ones as zero), and derive
`Remaining_Budget := Total_PO_Value - Amount_Already_Invoiced` exactly on rows
where the read `Remaining_Budget` is zero and `Total_PO_Value` positive. -/
def _ensure_po_columns (f : POFrame) : Except String (List PORow) :=
  let cols := f.cols.map pyStripStr
  if "PO_Number" ∉ cols then
    .error "PO register is missing required column: PO_Number"
  else
    .ok (f.rows.map (fun r =>
      let tot := numCol ("Total_PO_Value" ∈ cols) r.Total_PO_Value
      let alr := numCol ("Amount_Already_Invoiced" ∈ cols) r.Amount_Already_Invoiced
      let rem := numCol ("Remaining_Budget" ∈ cols) r.Remaining_Budget
      { PO_Number := pyStripStr r.PO_Number
        Total_PO_Value := tot
        Amount_Already_Invoiced := alr
        Remaining_Budget := if rem = 0 ∧ 0 < tot then tot - alr else rem }))

/-- The fields of the dictionary returned by the extractor
(src/extract_invoice.py, lines 243-248 — note the lower-case keys there). -/
structure ExtractedFields where
  po_number : Option String
  invoice_number : Option String
  invoice_amount : Option ℚ
  preview : String
deriving DecidableEq, Repr

/-- Python truthiness test `not x` for an optional string. -/
def strFalsy (x : Option String) : Bool :=
  match x with
  | none => true
  | some s => s = ""

/-- One result row of the prod batch: the dictionary appended to `results`
(src/run_batch_prod.py, lines 150-192) plus the audit columns added before
the budget pass (lines 223-225). `batch_id` / `processed_at` are per-run
constants and are supplied later, when rows are written to history. -/
structure BatchRow where
  file_name : String
  po_number : Option String
  invoice_number : Option String
  invoice_amount : Option ℚ
  status : String
  reason : String
  remaining_before : Option ℚ := none
  remaining_after : Option ℚ := none
  po_row_index : Option Nat := none
deriving DecidableEq, Repr

/-- Embedding of the per-document classification of `run_batch_prod`
(src/run_batch_prod.py, lines 143-194): `none` for `fields` models an
extraction call that raised (the `ERROR` row of lines 148-162); otherwise the
`NEEDS_REVIEW` / `VALID` triage of lines 164-192. -/
def mkResult (file_name : String) (fields : Option ExtractedFields) : BatchRow :=
  match fields with
  | none =>
    { file_name := file_name, po_number := none, invoice_number := none,
      invoice_amount := none, status := "ERROR", reason := "Extraction error" }
  | some f =>
    let sr : String × String :=
      if strFalsy f.invoice_number then ("NEEDS_REVIEW", "Invoice number missing")
      else if strFalsy f.po_number then ("NEEDS_REVIEW", "PO number missing")
      else if f.invoice_amount = none then ("NEEDS_REVIEW", "Invoice amount missing")
      else ("VALID", "")
    { file_name := file_name, po_number := f.po_number,
      invoice_number := f.invoice_number, invoice_amount := f.invoice_amount,
      status := sr.1, reason := sr.2 }

/-- Embedding of the duplicate-detection pass (src/run_batch_prod.py,
lines 199-215), `histInv` being `history_inv_set`. Per pandas semantics,
`duplicated(keep=False)` marks every row whose normalized invoice number
occurs more than once in the batch; rows in history and not so marked become
`DUPLICATE_HISTORY`. -/
def applyDupDetection (histInv : List String) (rows : List BatchRow) : List BatchRow :=
  let invs := rows.map (fun r => normCell r.invoice_number)
  rows.map (fun r =>
    let inv := normCell r.invoice_number
    let dupBatch := inv ≠ "" ∧ 2 ≤ invs.count inv
    if dupBatch then
      { r with status := "DUPLICATE", reason := "Duplicate invoice_number in this batch" }
    else if inv ≠ "" ∧ inv ∈ histInv then
      { r with status := "DUPLICATE_HISTORY",
               reason := "Invoice already processed in previous batch" }
    else r)

/-- One iteration of the budget-update loop of `run_batch_prod`
(src/run_batch_prod.py, lines 231-277): non-`VALID` rows are skipped;
a falsy PO number or non-positive amount demotes to `NEEDS_REVIEW`; the first
ledger row whose `PO_Number` matches is the budget record (`matches.index[0]`);
an amount above its `Remaining_Budget` is `OVERBUDGET` (no mutation);
otherwise the row's amount is committed to the ledger. The interpolated
numbers of the Python reason f-strings are elided. -/
def budgetOne (po_df : List PORow) (r : BatchRow) : List PORow × BatchRow :=
  if r.status ≠ "VALID" then (po_df, r)
  else
    let po_number := normCell r.po_number
    let inv_amt := r.invoice_amount.getD 0
    if po_number = "" ∨ inv_amt ≤ 0 then
      (po_df, { r with status := "NEEDS_REVIEW",
                       reason := "Invalid PO number or invoice amount" })
    else
      match po_df.enum.find? (fun p => p.2.PO_Number = po_number) with
      | none =>
        (po_df, { r with status := "PO_NOT_FOUND",
                         reason := "PO " ++ po_number ++ " not found in register" })
      | some (po_index, p) =>
        let remaining_before := p.Remaining_Budget
        let already_before := p.Amount_Already_Invoiced
        if remaining_before < inv_amt then
          (po_df, { r with status := "OVERBUDGET",
                           reason := "Invoice exceeds Remaining_Budget",
                           remaining_before := some remaining_before,
                           remaining_after := some remaining_before,
                           po_row_index := some po_index })
        else
          (po_df.set po_index
             { p with Amount_Already_Invoiced := already_before + inv_amt,
                      Remaining_Budget := remaining_before - inv_amt },
           { r with remaining_before := some remaining_before,
                    remaining_after := some (remaining_before - inv_amt),
                    po_row_index := some po_index })

/-- The budget-update pass: the sequential `for idx, row in batch_df.iterrows()`
fold of `run_batch_prod` (src/run_batch_prod.py, lines 231-277). -/
def applyBudget (po_df : List PORow) : List BatchRow → List PORow × List BatchRow
  | [] => (po_df, [])
  | r :: rs =>
    let pr := budgetOne po_df r
    let rest := applyBudget pr.1 rs
    (rest.1, pr.2 :: rest.2)

/-- The reconciliation pipeline of `run_batch_prod` downstream of extraction:
duplicate detection against the loaded history, then the budget pass. -/
def runReconciliation (histInv : List String) (po_df : List PORow)
    (rows : List BatchRow) : List PORow × List BatchRow :=
  applyBudget po_df (applyDupDetection histInv rows)

/-- Embedding of the history-update step of `run_batch_prod`
(src/run_batch_prod.py, lines 282-294): the `VALID` rows of the finished batch
are merged into the loaded history through `_append_to_history`; with no
`VALID` row the history is left as loaded. -/
def updateHistory (history_df : List HistoryRow) (batch_id processed_at : String)
    (rows : List BatchRow) : List HistoryRow :=
  let valid_df := rows.filter (fun r => r.status = "VALID")
  if valid_df.isEmpty then history_df
  else
    _append_to_history history_df (valid_df.map (fun r =>
      { invoice_number := normCell r.invoice_number
        po_number := normCell r.po_number
        invoice_amount := r.invoice_amount
        file_name := r.file_name
        batch_id := batch_id
        processed_at := processed_at }))

/-! ### src/extract_invoice.py : the result dictionary and the module as written -/

/-- A Python value held by the extractor's result dictionary. -/
inductive PyVal where
  | none
  | str (s : String)
  | num (q : ℚ)
deriving DecidableEq, Repr

/-- An optional string as a Python value. -/
def PyVal.ofOptStr : Option String → PyVal
  | Option.none => .none
  | some s => .str s

/-- An optional number as a Python value. -/
def PyVal.ofOptNum : Option ℚ → PyVal
  | Option.none => .none
  | some q => .num q

/-- Python `str(x)` on a dictionary value (`toString` on ℚ stands in for
`str` on a float; no claim depends on its exact spelling). -/
def PyVal.pyStr : PyVal → String
  | .none => "None"
  | .str s => s
  | .num q => toString q

/-- The dictionary literal returned by `extract_invoice_fields`
(src/extract_invoice.py, lines 243-248): its keys are the lower-case
`po_number`, `invoice_number`, `invoice_amount`, `_debug_text_preview`. -/
def extract_output_dict (f : ExtractedFields) : List (String × PyVal) :=
  [("po_number", PyVal.ofOptStr f.po_number),
   ("invoice_number", PyVal.ofOptStr f.invoice_number),
   ("invoice_amount", PyVal.ofOptNum f.invoice_amount),
   ("_debug_text_preview", PyVal.str f.preview)]

/-- Python `dict.get(key)`: the stored value, `None` for a missing key. -/
def dictGet (d : List (String × PyVal)) (key : String) : PyVal :=
  match d.find? (fun kv => kv.1 = key) with
  | Option.none => .none
  | some kv => kv.2

/-- A Python exception as visible to a caller of the extractor module. -/
inductive PyException where
  | syntaxError (msg : String)
deriving DecidableEq, Repr

/-- Embedding of a call to `extract_invoice_fields` (src/extract_invoice.py,
lines 207-248) through the module as committed: the amount-scanning `for` loop
of `_extract_fields_from_text` (source lines 193-201) is dedented to module
level, so the module body contains `return po, inv, amt` outside any function
and compiling the module raises `SyntaxError: 'return' outside function`
(source line 201) when it is first imported. No call path of the module can
run, so every call fails with that exception instead of returning the
dictionary of lines 243-248 (`python3 -m py_compile src/extract_invoice.py`
reproduces the error). -/
def extract_invoice_fields_asWritten (_pdf_path : String) :
    Except PyException (List (String × PyVal)) :=
  .error (.syntaxError "return outside function (extract_invoice.py, line 201)")

/-! ### src/run_batch.py : adapter, register loader, `process_invoice` -/

/-- `_normalize_po` applied to a raw dictionary value (`_normalize_po` takes
`Any` and does `str(x).strip()` after its `None` test). -/
def _normalize_po_py (x : PyVal) : Option String :=
  match x with
  | .none => Option.none
  | v => _normalize_po (some v.pyStr)

/-- `safe_float` applied to a raw dictionary value (`safe_float` takes `Any`;
for a float input `str(x)` then re-parsing returns the value itself). -/
def safe_float_py (x : PyVal) : Option ℚ :=
  match x with
  | .none => Option.none
  | .str s => safe_float (some s)
  | .num q => some q

/-- Embedding of the adapter `extract_invoice_fields` of src/run_batch.py
(lines 143-162): it reads the extractor's dictionary under the keys
`PO_Number`, `Invoice_Number` and `Invoice_Amount` and normalizes what it
finds. -/
def extract_invoice_fields_rb (data : List (String × PyVal)) :
    Option String × Option String × Option ℚ :=
  let po := dictGet data "PO_Number"
  let inv_no := dictGet data "Invoice_Number"
  let amt := dictGet data "Invoice_Amount"
  let invoice_number :=
    match inv_no with
    | .none => Option.none
    | v => let s := pyStripStr v.pyStr
           if s = "" then Option.none else some s
  (_normalize_po_py po, invoice_number, safe_float_py amt)

/-- One aggregated budget record of `load_po_register` (`PO_Number` is the
group key of `groupby("PO_Number", dropna=False)`, hence possibly `None`). -/
structure POAgg where
  PO_Number : Option String
  Total_PO_Value : ℚ
  Amount_Already_Invoiced : ℚ
  Remaining_Budget : ℚ
deriving DecidableEq, Repr

/-- A raw register row for `load_po_register`; each cell is the raw spreadsheet
value as a string, `none` when empty. -/
structure RegRow where
  PO_Number : Option String
  Total_PO_Value : Option String
  Amount_Already_Invoiced : Option String
deriving DecidableEq, Repr

/-- A raw register frame for `load_po_register`: column names plus rows. -/
structure RegisterFrame where
  cols : List String
  rows : List RegRow
deriving DecidableEq, Repr

/-- The columns `load_po_register` requires (src/run_batch.py, line 45). -/
def PO_REQUIRED_COLS : List String :=
  ["PO_Number", "Total_PO_Value", "Amount_Already_Invoiced"]

/-- Aggregated maximum of the `Total_PO_Value` entries of one group (pandas
`max` over a never-empty group). -/
def groupMax : List ℚ → ℚ
  | [] => 0
  | q :: qs => qs.foldl max q

/-- Embedding of `load_po_register` (src/run_batch.py, lines 168-199): fail
fast when a required column is missing; normalize `PO_Number`, parse the two
numeric columns with `safe_float` and `fillna(0.0)`; group rows by normalized
PO number (`dropna=False` keeps a `None` group), one record per distinct key
with `Total_PO_Value = max`, `Amount_Already_Invoiced = sum`, and derived
`Remaining_Budget`. The records come in first-occurrence order of the keys
(pandas sorts group keys; no claim depends on record order). -/
def load_po_register (f : RegisterFrame) : Except String (List POAgg) :=
  let missing := PO_REQUIRED_COLS.filter (fun c => c ∉ f.cols)
  if missing ≠ [] then
    .error "Missing columns in PO_Register.xlsx"
  else
    let prepared := f.rows.map (fun r =>
      (_normalize_po r.PO_Number,
       (safe_float r.Total_PO_Value).getD 0,
       (safe_float r.Amount_Already_Invoiced).getD 0))
    let keys := dedupByKey id (prepared.map (fun t => t.1))
    .ok (keys.map (fun k =>
      let grp := prepared.filter (fun t => t.1 = k)
      let total := groupMax (grp.map (fun t => t.2.1))
      let invoiced := (grp.map (fun t => t.2.2)).sum
      { PO_Number := k, Total_PO_Value := total,
        Amount_Already_Invoiced := invoiced,
        Remaining_Budget := total - invoiced }))

/-- Embedding of the dataclass `InvoiceResult` (src/run_batch.py,
lines 125-137). -/
structure InvoiceResult where
  batch_id : String
  processed_at : String
  file_name : String
  po_number : Option String
  invoice_number : Option String
  invoice_amount : Option ℚ
  status : String
  reason : String
  po_budget : Option ℚ := none
  remaining_before : Option ℚ := none
  remaining_after : Option ℚ := none
deriving DecidableEq, Repr

/-- Embedding of `process_invoice` (src/run_batch.py, lines 362-514).
`extraction` is the outcome of the adapter call (`.error` models the
`except Exception` arm of lines 374-387); `seen_keys` is the in-run duplicate
set of `(PO_Number, Invoice_Number)` tuples, returned updated because the
Python code mutates it in place. The checks run in source order: extractor
error, missing invoice number, in-run duplicate (the key is registered even
when a later check fails the invoice), missing PO, missing or non-positive
amount, PO lookup, overbudget test against the live `Remaining_Budget`, and
finally the `VALID` commit that mutates the matched register row. -/
def process_invoice (df_po : List POAgg)
    (extraction : Except String (Option String × Option String × Option ℚ))
    (seen_keys : List (Option String × String))
    (batch_id processed_at_iso file_name : String) :
    InvoiceResult × List POAgg × List (Option String × String) :=
  match extraction with
  | .error e =>
    ({ batch_id := batch_id, processed_at := processed_at_iso,
       file_name := file_name, po_number := none, invoice_number := none,
       invoice_amount := none, status := "INVALID",
       reason := "Extractor error: " ++ e }, df_po, seen_keys)
  | .ok (po_number, invoice_number, invoice_amount) =>
    if strFalsy invoice_number then
      ({ batch_id := batch_id, processed_at := processed_at_iso,
         file_name := file_name, po_number := po_number, invoice_number := none,
         invoice_amount := invoice_amount, status := "NEEDS_REVIEW",
         reason := "Invoice number missing" }, df_po, seen_keys)
    else
      let key : Option String × String := (po_number, invoice_number.getD "")
      if ¬strFalsy po_number ∧ key ∈ seen_keys then
        ({ batch_id := batch_id, processed_at := processed_at_iso,
           file_name := file_name, po_number := po_number,
           invoice_number := invoice_number, invoice_amount := invoice_amount,
           status := "INVALID",
           reason := "Duplicate invoice detected (same PO_Number + Invoice_Number)" },
         df_po, seen_keys)
      else
        let seen' := if ¬strFalsy po_number then key :: seen_keys else seen_keys
        if strFalsy po_number then
          ({ batch_id := batch_id, processed_at := processed_at_iso,
             file_name := file_name, po_number := none,
             invoice_number := invoice_number, invoice_amount := invoice_amount,
             status := "INVALID", reason := "PO missing" }, df_po, seen')
        else if invoice_amount.getD 0 ≤ 0 then
          ({ batch_id := batch_id, processed_at := processed_at_iso,
             file_name := file_name, po_number := po_number,
             invoice_number := invoice_number, invoice_amount := invoice_amount,
             status := "INVALID", reason := "Amount missing/zero or not parsed" },
           df_po, seen')
        else
          match df_po.enum.find? (fun p => p.2.PO_Number = po_number) with
          | none =>
            ({ batch_id := batch_id, processed_at := processed_at_iso,
               file_name := file_name, po_number := po_number,
               invoice_number := invoice_number, invoice_amount := invoice_amount,
               status := "PO_NOT_FOUND", reason := "PO not found in register" },
             df_po, seen')
          | some (i, p) =>
            let remaining_before := p.Remaining_Budget
            let po_budget := p.Total_PO_Value
            let amt := invoice_amount.getD 0
            if remaining_before < amt then
              ({ batch_id := batch_id, processed_at := processed_at_iso,
                 file_name := file_name, po_number := po_number,
                 invoice_number := invoice_number, invoice_amount := invoice_amount,
                 status := "OVERBUDGET",
                 reason := "Invoice exceeds Remaining_Budget",
                 po_budget := some po_budget,
                 remaining_before := some remaining_before,
                 remaining_after := some remaining_before }, df_po, seen')
            else
              let new_remaining := remaining_before - amt
              ({ batch_id := batch_id, processed_at := processed_at_iso,
                 file_name := file_name, po_number := po_number,
                 invoice_number := invoice_number, invoice_amount := invoice_amount,
                 status := "VALID", reason := "OK",
                 po_budget := some po_budget,
                 remaining_before := some remaining_before,
                 remaining_after := some new_remaining },
               df_po.set i { p with
                 Amount_Already_Invoiced := p.Amount_Already_Invoiced + amt,
                 Remaining_Budget := new_remaining },
               seen')

/-- Decidable equality of `Except` results, for concrete evaluations. -/
instance {ε α : Type} [DecidableEq ε] [DecidableEq α] : DecidableEq (Except ε α) := fun a b =>
  match a, b with
  | .error x, .error y =>
    if h : x = y then isTrue (by rw [h]) else isFalse (by simp [h])
  | .error _, .ok _ => isFalse (by simp)
  | .ok _, .error _ => isFalse (by simp)
  | .ok x, .ok y =>
    if h : x = y then isTrue (by rw [h]) else isFalse (by simp [h])

/-! ### Claim theorems -/

/-- C1: budget consumption is sequential and order-dependent. For a PO budget
record with `total_po_value = 1000` and `amount_already_invoiced = 0`
(as loaded by `_ensure_po_columns`, which derives `remaining_budget = 1000`),
processing two invoices of 600 and 500 against that PO in that order yields
the first invoice `VALID` with `remaining_after = 400` and the second
`OVERBUDGET` with the live balance 400 < 500, because each `OVERBUDGET` check
reads the `remaining_budget` already mutated by earlier accepted invoices of
the run; reversing the order instead accepts the 500 invoice
(`remaining_after = 500`) and rejects the 600 one. The same holds of
`process_invoice` in src/run_batch.py, threading the register through two
sequential calls. -/
theorem C1_budget_consumption_order_dependent :
    (_ensure_po_columns
        ⟨["PO_Number", "Total_PO_Value", "Amount_Already_Invoiced"],
         [⟨"PO-1", some 1000, some 0, none⟩]⟩ =
      .ok [⟨"PO-1", 1000, 0, 1000⟩]) ∧
    (let r600 := mkResult "a.pdf" (some ⟨some "PO-1", some "INV-A", some 600, ""⟩)
     let r500 := mkResult "b.pdf" (some ⟨some "PO-1", some "INV-B", some 500, ""⟩)
     let ledger : List PORow := [⟨"PO-1", 1000, 0, 1000⟩]
     ((runReconciliation [] ledger [r600, r500]).2.map
        (fun r => (r.invoice_amount, r.status, r.remaining_after)) =
       [(some 600, "VALID", some 400), (some 500, "OVERBUDGET", some 400)]) ∧
     (runReconciliation [] ledger [r600, r500]).1 = [⟨"PO-1", 1000, 600, 400⟩] ∧
     ((runReconciliation [] ledger [r500, r600]).2.map
        (fun r => (r.invoice_amount, r.status, r.remaining_after)) =
       [(some 500, "VALID", some 500), (some 600, "OVERBUDGET", some 500)]) ∧
     (runReconciliation [] ledger [r500, r600]).1 = [⟨"PO-1", 1000, 500, 500⟩]) ∧
    (let dp : List POAgg := [⟨some "PO-1", 1000, 0, 1000⟩]
     let s1 := process_invoice dp (.ok (some "PO-1", some "INV-A", some 600)) [] "b" "t" "a.pdf"
     let s2 := process_invoice s1.2.1 (.ok (some "PO-1", some "INV-B", some 500)) s1.2.2 "b" "t" "b.pdf"
     s1.1.status = "VALID" ∧ s1.1.remaining_after = some 400 ∧
     s2.1.status = "OVERBUDGET" ∧ s2.1.remaining_before = some 400 ∧
     s2.2.1 = s1.2.1 ∧
     (let t1 := process_invoice dp (.ok (some "PO-1", some "INV-B", some 500)) [] "b" "t" "b.pdf"
      let t2 := process_invoice t1.2.1 (.ok (some "PO-1", some "INV-A", some 600)) t1.2.2 "b" "t" "a.pdf"
      t1.1.status = "VALID" ∧ t1.1.remaining_after = some 500 ∧
      t2.1.status = "OVERBUDGET" ∧ t2.1.remaining_before = some 500)) := by
  decide

/-- C3 counterexample: two documents of one run both yielding normalized
invoice number `INV-001` (against different POs, both otherwise `VALID`).
The claim says exactly one of them — the first seen — remains eligible for a
`VALID` outcome and only the second-seen one is assigned `DUPLICATE`; but
`duplicated(keep=False)` marks every occurrence, so both rows end the run as
`DUPLICATE`, including the first seen, and neither consumes budget. -/
theorem C3_first_seen_also_marked_duplicate :
    (applyDupDetection []
        [mkResult "a.pdf" (some ⟨some "PO-1", some "INV-001", some 100, ""⟩),
         mkResult "b.pdf" (some ⟨some "PO-2", some "INV-001", some 200, ""⟩)]).map
      (fun r => r.status) = ["DUPLICATE", "DUPLICATE"] ∧
    (runReconciliation []
        [⟨"PO-1", 1000, 0, 1000⟩, ⟨"PO-2", 1000, 0, 1000⟩]
        [mkResult "a.pdf" (some ⟨some "PO-1", some "INV-001", some 100, ""⟩),
         mkResult "b.pdf" (some ⟨some "PO-2", some "INV-001", some 200, ""⟩)]).2.map
      (fun r => (r.status, r.remaining_after)) =
      [("DUPLICATE", none), ("DUPLICATE", none)] := by
  decide

/-- C3 as amended: in `run_batch_prod` the in-batch duplicate check is keyed on
the normalized invoice number alone (independent of the PO number), but it
marks every occurrence, not just later ones: whenever the normalized invoice
number of row `i` is non-empty and occurs at least twice in the run, row `i`
itself is assigned status `DUPLICATE` — in particular the first-seen document
does not stay eligible for `VALID`. -/
theorem C3_duplicates_keyed_on_invoice_number_mark_all_occurrences
    (histInv : List String) (rows : List BatchRow) (i : Nat) (r : BatchRow)
    (hget : rows[i]? = some r)
    (hne : normCell r.invoice_number ≠ "")
    (hcount : 2 ≤ (rows.map (fun x => normCell x.invoice_number)).count
        (normCell r.invoice_number)) :
    ((applyDupDetection histInv rows)[i]?).map (fun x => (x.status, x.reason)) =
      some ("DUPLICATE", "Duplicate invoice_number in this batch") := by
  unfold applyDupDetection
  rw [List.getElem?_map, hget]
  simp only [Option.map_some']
  rw [if_pos (And.intro hne hcount)]

/-- C3 witness: the amended duplicate rule applied to the concrete two-document
run of the counterexample, at row 0 (the first-seen document). -/
theorem C3_duplicates_mark_all_occurrences_witness :
    ((applyDupDetection []
        [mkResult "a.pdf" (some ⟨some "PO-1", some "INV-001", some 100, ""⟩),
         mkResult "b.pdf" (some ⟨some "PO-2", some "INV-001", some 200, ""⟩)])[0]?).map
      (fun x => (x.status, x.reason)) =
      some ("DUPLICATE", "Duplicate invoice_number in this batch") :=
  C3_duplicates_keyed_on_invoice_number_mark_all_occurrences []
    [mkResult "a.pdf" (some ⟨some "PO-1", some "INV-001", some 100, ""⟩),
     mkResult "b.pdf" (some ⟨some "PO-2", some "INV-001", some 200, ""⟩)]
    0 (mkResult "a.pdf" (some ⟨some "PO-1", some "INV-001", some 100, ""⟩))
    (by decide) (by decide) (by decide)

/-- C7: the claim says `extract_invoice_fields` is total and never raises. The
code contradicts it: in src/extract_invoice.py as committed, the
amount-scanning `for` loop (lines 193-201) is dedented out of
`_extract_fields_from_text` to module level, leaving `return po, inv, amt`
outside any function — `SyntaxError: 'return' outside function` (line 201) —
so importing the module, and with it every call to `extract_invoice_fields`,
raises instead of returning the complete all-keys dictionary. -/
theorem C7_extractor_as_written_always_raises (pdf_path : String) :
    extract_invoice_fields_asWritten pdf_path =
      .error (.syntaxError "return outside function (extract_invoice.py, line 201)") ∧
    ∀ d, extract_invoice_fields_asWritten pdf_path ≠ .ok d := by
  exact ⟨rfl, fun d h => Except.noConfusion h⟩

/-- C10: the adapter `extract_invoice_fields` of src/run_batch.py reads the
extractor's dictionary under the keys `PO_Number`, `Invoice_Number`,
`Invoice_Amount`, while the extractor returns the keys `po_number`,
`invoice_number`, `invoice_amount`; so for every extraction that returns
normally the adapter yields `(None, None, None)`, `process_invoice` classifies
the invoice `NEEDS_REVIEW` with reason `Invoice number missing`, the register
and the duplicate set are returned untouched, and no invoice processed
through this entrypoint is `VALID` or consumes budget. -/
theorem C10_adapter_key_mismatch_blocks_all_invoices
    (f : ExtractedFields) (df_po : List POAgg)
    (seen : List (Option String × String)) (b t fn : String) :
    extract_invoice_fields_rb (extract_output_dict f) = (none, none, none) ∧
    (let res := process_invoice df_po
        (.ok (extract_invoice_fields_rb (extract_output_dict f))) seen b t fn
     res.1.status = "NEEDS_REVIEW" ∧ res.1.reason = "Invoice number missing" ∧
     res.1.status ≠ "VALID" ∧ res.2.1 = df_po ∧ res.2.2 = seen) := by
  refine ⟨rfl, rfl, rfl, ?_, rfl, rfl⟩
  intro h
  have h2 : "NEEDS_REVIEW" = "VALID" := h
  exact absurd h2 (by decide)

/-- How one budget-loop iteration treats the ledger row at index `i`: a
non-negative `Remaining_Budget` stays non-negative, and a row with negative
`Remaining_Budget` is returned untouched. -/
theorem budgetOne_remaining (po : List PORow) (r : BatchRow) (i : Nat) (p : PORow)
    (h : po[i]? = some p) :
    ∃ p', ((budgetOne po r).1)[i]? = some p' ∧
      (0 ≤ p.Remaining_Budget → 0 ≤ p'.Remaining_Budget) ∧
      (p.Remaining_Budget < 0 → p' = p) := by
  simp only [budgetOne]
  split
  · exact ⟨p, h, fun hh => hh, fun _ => rfl⟩
  split
  · exact ⟨p, h, fun hh => hh, fun _ => rfl⟩
  case isFalse hamt =>
  split
  · exact ⟨p, h, fun hh => hh, fun _ => rfl⟩
  case h_2 pr po_index p₂ hfind =>
  split
  · exact ⟨p, h, fun hh => hh, fun _ => rfl⟩
  case isFalse hle =>
  have hmem := List.mem_of_find?_eq_some hfind
  have hj : po[po_index]? = some p₂ := List.mem_enum_iff_getElem?.mp hmem
  have hpos : 0 < r.invoice_amount.getD 0 := by
    rcases not_or.mp hamt with ⟨-, h2⟩
    exact lt_of_not_le h2
  by_cases hij : po_index = i
  · subst hij
    have hpp : p₂ = p := by rw [hj] at h; exact Option.some.inj h
    subst hpp
    have hlen : po_index < po.length := (List.getElem?_eq_some.mp hj).1
    dsimp only
    rw [List.getElem?_set_self hlen]
    exact ⟨_, rfl, fun _ => sub_nonneg.mpr (not_lt.mp hle),
      fun hneg => absurd (lt_of_lt_of_le hpos (not_lt.mp hle)) (not_lt.mpr hneg.le)⟩
  · exact ⟨p, by dsimp only; rw [List.getElem?_set_ne hij]; exact h,
      fun hh => hh, fun _ => rfl⟩

/-- The budget pass preserves, rowwise, non-negativity of `Remaining_Budget`
and leaves rows with negative `Remaining_Budget` untouched. -/
theorem applyBudget_remaining (rows : List BatchRow) (po : List PORow) (i : Nat)
    (p : PORow) (h : po[i]? = some p) :
    ∃ p', ((applyBudget po rows).1)[i]? = some p' ∧
      (0 ≤ p.Remaining_Budget → 0 ≤ p'.Remaining_Budget) ∧
      (p.Remaining_Budget < 0 → p' = p) := by
  induction rows generalizing po p with
  | nil => exact ⟨p, h, fun hh => hh, fun _ => rfl⟩
  | cons r rs ih =>
    obtain ⟨p₁, h₁, hpos₁, hneg₁⟩ := budgetOne_remaining po r i p h
    obtain ⟨p₂, h₂, hpos₂, hneg₂⟩ := ih (budgetOne po r).1 p₁ h₁
    refine ⟨p₂, h₂, fun hh => hpos₂ (hpos₁ hh), fun hh => ?_⟩
    have e₁ : p₁ = p := hneg₁ hh
    rw [e₁] at hneg₂
    exact hneg₂ hh

/-- How `process_invoice` treats the aggregated register row at index `i`:
same preservation facts as for the prod budget loop. -/
theorem process_invoice_remaining (df_po : List POAgg)
    (extraction : Except String (Option String × Option String × Option ℚ))
    (seen_keys : List (Option String × String)) (b t fn : String)
    (i : Nat) (q : POAgg) (h : df_po[i]? = some q) :
    ∃ q', ((process_invoice df_po extraction seen_keys b t fn).2.1)[i]? = some q' ∧
      (0 ≤ q.Remaining_Budget → 0 ≤ q'.Remaining_Budget) ∧
      (q.Remaining_Budget < 0 → q' = q) := by
  simp only [process_invoice]
  split
  · exact ⟨q, h, fun hh => hh, fun _ => rfl⟩
  split
  · exact ⟨q, h, fun hh => hh, fun _ => rfl⟩
  split
  · exact ⟨q, h, fun hh => hh, fun _ => rfl⟩
  split
  · exact ⟨q, h, fun hh => hh, fun _ => rfl⟩
  split
  case isTrue hle => exact ⟨q, h, fun hh => hh, fun _ => rfl⟩
  case isFalse hamt =>
  split
  · exact ⟨q, h, fun hh => hh, fun _ => rfl⟩
  case h_2 pr po_index p₂ hfind =>
  split
  · exact ⟨q, h, fun hh => hh, fun _ => rfl⟩
  case isFalse hle =>
  have hmem := List.mem_of_find?_eq_some hfind
  have hj : df_po[po_index]? = some p₂ := List.mem_enum_iff_getElem?.mp hmem
  have hpos := lt_of_not_le hamt
  by_cases hij : po_index = i
  · subst hij
    have hpp : p₂ = q := by rw [hj] at h; exact Option.some.inj h
    subst hpp
    have hlen : po_index < df_po.length := (List.getElem?_eq_some.mp hj).1
    dsimp only
    rw [List.getElem?_set_self hlen]
    exact ⟨_, rfl, fun _ => sub_nonneg.mpr (not_lt.mp hle),
      fun hneg => absurd (lt_of_lt_of_le hpos (not_lt.mp hle)) (not_lt.mpr hneg.le)⟩
  · exact ⟨q, by dsimp only; rw [List.getElem?_set_ne hij]; exact h,
      fun hh => hh, fun _ => rfl⟩

/-- C2: the reconciliation engines never drive a `Remaining_Budget` negative
and never touch an already-negative one. For the prod budget pass (over any
row list, hence also after every prefix of a run) and for `process_invoice`
of src/run_batch.py: a ledger row whose `Remaining_Budget` is non-negative
before the pass has a non-negative `Remaining_Budget` after it (the
`OVERBUDGET` check rejects before mutating), and a row whose
`Remaining_Budget` is already negative is returned exactly as it was. -/
theorem C2_remaining_budget_invariant
    (histInv : List String) (po : List PORow) (rows : List BatchRow)
    (df_po : List POAgg)
    (extraction : Except String (Option String × Option String × Option ℚ))
    (seen_keys : List (Option String × String)) (b t fn : String)
    (i : Nat) (p : PORow) (q : POAgg)
    (hp : po[i]? = some p) (hq : df_po[i]? = some q) :
    (∃ p', ((runReconciliation histInv po rows).1)[i]? = some p' ∧
      (0 ≤ p.Remaining_Budget → 0 ≤ p'.Remaining_Budget) ∧
      (p.Remaining_Budget < 0 → p' = p)) ∧
    (∃ q', ((process_invoice df_po extraction seen_keys b t fn).2.1)[i]? = some q' ∧
      (0 ≤ q.Remaining_Budget → 0 ≤ q'.Remaining_Budget) ∧
      (q.Remaining_Budget < 0 → q' = q)) :=
  ⟨applyBudget_remaining (applyDupDetection histInv rows) po i p hp,
   process_invoice_remaining df_po extraction seen_keys b t fn i q hq⟩

/-- C2 witness: the invariant applied to a one-PO ledger (remaining 1000 ≥ 0)
with a 600 invoice, and to a register row with a pre-existing negative
balance, which the engine leaves untouched. -/
theorem C2_remaining_budget_invariant_witness :
    (∃ p', ((runReconciliation [] [⟨"PO-1", 1000, 0, 1000⟩]
        [mkResult "a.pdf" (some ⟨some "PO-1", some "INV-A", some 600, ""⟩)]).1)[0]? = some p' ∧
      (0 ≤ (1000 : ℚ) → 0 ≤ p'.Remaining_Budget) ∧
      ((1000 : ℚ) < 0 → p' = ⟨"PO-1", 1000, 0, 1000⟩)) ∧
    (∃ q', ((process_invoice [⟨some "PO-9", 100, 130, -30⟩]
        (.ok (some "PO-9", some "INV-Z", some 50)) [] "b" "t" "z.pdf").2.1)[0]? = some q' ∧
      (0 ≤ (-30 : ℚ) → 0 ≤ q'.Remaining_Budget) ∧
      ((-30 : ℚ) < 0 → q' = ⟨some "PO-9", 100, 130, -30⟩)) :=
  C2_remaining_budget_invariant [] [⟨"PO-1", 1000, 0, 1000⟩]
    [mkResult "a.pdf" (some ⟨some "PO-1", some "INV-A", some 600, ""⟩)]
    [⟨some "PO-9", 100, 130, -30⟩] (.ok (some "PO-9", some "INV-Z", some 50))
    [] "b" "t" "z.pdf" 0 ⟨"PO-1", 1000, 0, 1000⟩ ⟨some "PO-9", 100, 130, -30⟩
    (by decide) (by decide)

/-! ### Auxiliary lemmas: stripping and keyed deduplication -/

theorem pyStrip_eq_rdropWhile (l : List Char) :
    pyStrip l = (l.dropWhile isPySpace).rdropWhile isPySpace := rfl

/-- A prefix of a list already stripped on the left is stripped on the left. -/
theorem dropWhile_rdropWhile_of_dropWhile_eq {p : Char → Bool} {m : List Char}
    (hm : m.dropWhile p = m) : (m.rdropWhile p).dropWhile p = m.rdropWhile p := by
  cases hE : m.rdropWhile p with
  | nil => rfl
  | cons b bs =>
    obtain ⟨s, hs⟩ := List.rdropWhile_prefix p m
    rw [hE] at hs
    have hbX : m = b :: (bs ++ s) := by rw [← hs]; rfl
    have hpb : p b = false := by
      by_contra hc
      have hcb : p b = true := by
        cases hb : p b
        · exact absurd hb hc
        · rfl
      have hXdrop := hm
      rw [hbX, List.dropWhile_cons, hcb, if_pos rfl] at hXdrop
      have hlen := congrArg List.length hXdrop
      have hle := (List.dropWhile_sublist (l := bs ++ s) (p := p)).length_le
      simp only [List.length_cons] at hlen
      omega
    simp [List.dropWhile_cons, hpb]

/-- Python `strip()` is idempotent. -/
theorem pyStrip_idem (l : List Char) : pyStrip (pyStrip l) = pyStrip l := by
  rw [pyStrip_eq_rdropWhile, pyStrip_eq_rdropWhile,
    dropWhile_rdropWhile_of_dropWhile_eq
      (List.dropWhile_idempotent (l := l) (p := isPySpace)),
    List.rdropWhile_idempotent]

theorem pyStripStr_idem (s : String) : pyStripStr (pyStripStr s) = pyStripStr s :=
  congrArg String.mk (pyStrip_idem s.data)

theorem mem_of_mem_dedupByKeyAux {α κ : Type} [DecidableEq κ] {key : α → κ} :
    ∀ {seen : List κ} {l : List α} {x : α}, x ∈ dedupByKeyAux key seen l → x ∈ l := by
  intro seen l
  induction l generalizing seen with
  | nil => intro x hx; exact absurd hx (List.not_mem_nil x)
  | cons a as ih =>
    intro x hx
    unfold dedupByKeyAux at hx
    split at hx
    · exact List.mem_cons_of_mem a (ih hx)
    · rcases List.mem_cons.mp hx with h | h
      · exact h ▸ List.mem_cons_self a as
      · exact List.mem_cons_of_mem a (ih h)

theorem mem_keys_dedupByKeyAux {α κ : Type} [DecidableEq κ] {key : α → κ} :
    ∀ {seen : List κ} {l : List α} {k : κ}, k ∉ seen → k ∈ l.map key →
      k ∈ (dedupByKeyAux key seen l).map key := by
  intro seen l
  induction l generalizing seen with
  | nil => intro k _ hk; exact absurd hk (List.not_mem_nil k)
  | cons a as ih =>
    intro k hks hk
    rw [List.map_cons] at hk
    unfold dedupByKeyAux
    rcases List.mem_cons.mp hk with hka | hkas
    · have hsa : key a ∉ seen := by rw [← hka]; exact hks
      rw [if_neg hsa, List.map_cons]
      exact hka ▸ List.mem_cons_self _ _
    · by_cases hsa : key a ∈ seen
      · rw [if_pos hsa]
        exact ih hks hkas
      · rw [if_neg hsa, List.map_cons]
        by_cases hka : k = key a
        · exact hka ▸ List.mem_cons_self _ _
        · refine List.mem_cons_of_mem _ (ih ?_ hkas)
          intro hc
          rcases List.mem_cons.mp hc with h | h
          · exact hka h
          · exact hks h

theorem keys_dedupByKeyAux_nodup {α κ : Type} [DecidableEq κ] {key : α → κ} :
    ∀ {seen : List κ} {l : List α},
      ((dedupByKeyAux key seen l).map key).Nodup ∧
      ∀ k ∈ (dedupByKeyAux key seen l).map key, k ∉ seen := by
  intro seen l
  induction l generalizing seen with
  | nil =>
    refine ⟨?_, ?_⟩
    · unfold dedupByKeyAux; exact List.nodup_nil
    · unfold dedupByKeyAux; intro k hk; exact absurd hk (List.not_mem_nil k)
  | cons a as ih =>
    unfold dedupByKeyAux
    split
    · exact ih
    case isFalse hsa =>
      obtain ⟨hnd, hdis⟩ := @ih (key a :: seen)
      rw [List.map_cons]
      refine ⟨List.nodup_cons.mpr ⟨?_, hnd⟩, ?_⟩
      · intro hc
        exact hdis (key a) hc (List.mem_cons_self _ _)
      · intro k hk
        rcases List.mem_cons.mp hk with h | h
        · rw [h]; exact hsa
        · intro hc
          exact hdis k h (List.mem_cons_of_mem _ hc)

theorem dedupByKeyAux_eq_self {α κ : Type} [DecidableEq κ] {key : α → κ} :
    ∀ {seen : List κ} {l : List α}, (l.map key).Nodup →
      (∀ k ∈ l.map key, k ∉ seen) → dedupByKeyAux key seen l = l := by
  intro seen l
  induction l generalizing seen with
  | nil => intro _ _; rfl
  | cons a as ih =>
    intro hnd hdis
    rw [List.map_cons] at hnd hdis
    obtain ⟨hha, hta⟩ := List.nodup_cons.mp hnd
    unfold dedupByKeyAux
    rw [if_neg (hdis (key a) (List.mem_cons_self _ _))]
    congr 1
    refine ih hta ?_
    intro k hk hc
    rcases List.mem_cons.mp hc with h | h
    · exact hha (h ▸ hk)
    · exact hdis k (List.mem_cons_of_mem _ hk) h

theorem dedupByKeyAux_eq_nil_of_seen {α κ : Type} [DecidableEq κ] {key : α → κ} :
    ∀ {seen : List κ} {l : List α}, (∀ k ∈ l.map key, k ∈ seen) →
      dedupByKeyAux key seen l = [] := by
  intro seen l
  induction l generalizing seen with
  | nil => intro _; rfl
  | cons a as ih =>
    intro hall
    rw [List.map_cons] at hall
    unfold dedupByKeyAux
    rw [if_pos (hall (key a) (List.mem_cons_self _ _))]
    exact ih (fun k hk => hall k (List.mem_cons_of_mem _ hk))

theorem dedupByKeyAux_append_absorb {α κ : Type} [DecidableEq κ] {key : α → κ} :
    ∀ {l₁ : List α} {seen : List κ} {l₂ : List α},
      (∀ k ∈ l₂.map key, k ∈ seen ∨ k ∈ (dedupByKeyAux key seen l₁).map key) →
      dedupByKeyAux key seen (l₁ ++ l₂) = dedupByKeyAux key seen l₁ := by
  intro l₁
  induction l₁ with
  | nil =>
    intro seen l₂ h
    rw [List.nil_append]
    refine dedupByKeyAux_eq_nil_of_seen (fun k hk => ?_)
    rcases h k hk with hs | hs
    · exact hs
    · unfold dedupByKeyAux at hs
      exact absurd hs (List.not_mem_nil k)
  | cons a as ih =>
    intro seen l₂ h
    rw [List.cons_append]
    unfold dedupByKeyAux
    split
    case isTrue hsa =>
      refine ih (fun k hk => ?_)
      rcases h k hk with hs | hs
      · exact Or.inl hs
      · right
        unfold dedupByKeyAux at hs
        rw [if_pos hsa] at hs
        exact hs
    case isFalse hsa =>
      congr 1
      refine ih (fun k hk => ?_)
      rcases h k hk with hs | hs
      · exact Or.inl (List.mem_cons_of_mem _ hs)
      · unfold dedupByKeyAux at hs
        rw [if_neg hsa, List.map_cons] at hs
        rcases List.mem_cons.mp hs with hka | hkas
        · exact Or.inl (hka ▸ List.mem_cons_self _ _)
        · exact Or.inr hkas

theorem find?_dedupByKeyAux {α κ : Type} [DecidableEq κ] {key : α → κ} :
    ∀ {seen : List κ} {l : List α} {k : κ}, k ∉ seen →
      (dedupByKeyAux key seen l).find? (fun x => key x = k) =
        l.find? (fun x => key x = k) := by
  intro seen l
  induction l generalizing seen with
  | nil => intro k _; rfl
  | cons a as ih =>
    intro k hks
    unfold dedupByKeyAux
    by_cases hak : key a = k
    · have hsa : key a ∉ seen := by rw [hak]; exact hks
      rw [if_neg hsa, List.find?_cons_of_pos _ (by simpa using hak),
        List.find?_cons_of_pos _ (by simpa using hak)]
    · by_cases hsa : key a ∈ seen
      · rw [if_pos hsa, ih hks, List.find?_cons_of_neg _ (by simpa using hak)]
      · rw [if_neg hsa, List.find?_cons_of_neg _ (by simpa using hak),
          List.find?_cons_of_neg _ (by simpa using hak)]
        refine ih ?_
        intro hc
        rcases List.mem_cons.mp hc with h | h
        · exact hak h.symm
        · exact hks h

theorem budgetOne_not_valid {po : List PORow} {r : BatchRow} (h : r.status ≠ "VALID") :
    budgetOne po r = (po, r) := by
  unfold budgetOne
  rw [if_pos h]

/-- The budget pass returns a row that did not enter it as `VALID` untouched,
at its position. -/
theorem applyBudget_snd_of_not_valid :
    ∀ {rows : List BatchRow} {po : List PORow} {i : Nat} {r : BatchRow},
      rows[i]? = some r → r.status ≠ "VALID" →
      ((applyBudget po rows).2)[i]? = some r := by
  intro rows
  induction rows with
  | nil => intro po i r h _; rw [List.getElem?_nil] at h; exact absurd h (by simp)
  | cons hd tl ih =>
    intro po i r h hnv
    cases i with
    | zero =>
      rw [List.getElem?_cons_zero] at h
      have hr : hd = r := Option.some.inj h
      subst hr
      simp only [applyBudget, budgetOne_not_valid hnv, List.getElem?_cons_zero]
    | succ n =>
      rw [List.getElem?_cons_succ] at h
      simp only [applyBudget, List.getElem?_cons_succ]
      exact ih h hnv

/-- C4: cross-run duplicate detection. For every invoice of the run whose
normalized invoice number is non-empty and present in the history loaded at
run start: (a) if it is not flagged as an in-batch duplicate, its assigned
status is `DUPLICATE_HISTORY`; (b) whatever the in-batch situation, its final
status after the budget pass is `DUPLICATE` or `DUPLICATE_HISTORY` — never
`VALID`, whatever PO it cites; and (c) every invoice a run does accept as
`VALID` has its normalized invoice number written to the merged history, so
the exclusion applies to all later runs. -/
theorem C4_history_duplicates_never_reaccepted
    (histInv : List String) (po : List PORow) (rows : List BatchRow)
    (history_df : List HistoryRow) (b t : String)
    (i : Nat) (r : BatchRow)
    (hget : rows[i]? = some r)
    (hne : normCell r.invoice_number ≠ "")
    (hhist : normCell r.invoice_number ∈ histInv) :
    ((rows.map (fun x => normCell x.invoice_number)).count
        (normCell r.invoice_number) ≤ 1 →
      ((applyDupDetection histInv rows)[i]?).map (fun x => x.status) =
        some "DUPLICATE_HISTORY") ∧
    (∃ r', ((runReconciliation histInv po rows).2)[i]? = some r' ∧
      (r'.status = "DUPLICATE" ∨ r'.status = "DUPLICATE_HISTORY") ∧
      r'.status ≠ "VALID") ∧
    (∀ (out : List BatchRow) (r' : BatchRow), r' ∈ out →
      r'.status = "VALID" → normCell r'.invoice_number ≠ "" →
      normCell r'.invoice_number ∈
        (updateHistory history_df b t out).map (fun hr => hr.invoice_number)) := by
  have hdet : (applyDupDetection histInv rows)[i]? =
      some (if normCell r.invoice_number ≠ "" ∧
              2 ≤ (rows.map (fun x => normCell x.invoice_number)).count
                (normCell r.invoice_number)
        then { r with status := "DUPLICATE",
                      reason := "Duplicate invoice_number in this batch" }
        else if normCell r.invoice_number ≠ "" ∧ normCell r.invoice_number ∈ histInv
          then { r with status := "DUPLICATE_HISTORY",
                        reason := "Invoice already processed in previous batch" }
          else r) := by
    unfold applyDupDetection
    rw [List.getElem?_map, hget, Option.map_some']
  refine ⟨?_, ?_, ?_⟩
  · intro hcount
    have hnotdup : ¬(normCell r.invoice_number ≠ "" ∧
        2 ≤ (rows.map (fun x => normCell x.invoice_number)).count
          (normCell r.invoice_number)) := by
      rintro ⟨-, hc⟩
      omega
    rw [hdet, if_neg hnotdup, if_pos (And.intro hne hhist), Option.map_some']
  · by_cases hdup : 2 ≤ (rows.map (fun x => normCell x.invoice_number)).count
        (normCell r.invoice_number)
    · have hd := hdet
      rw [if_pos (And.intro hne hdup)] at hd
      refine ⟨_, applyBudget_snd_of_not_valid hd ?_, Or.inl rfl, ?_⟩
      all_goals
        intro hcon
        exact absurd (show ("DUPLICATE" : String) = "VALID" from hcon) (by decide)
    · have hd := hdet
      rw [if_neg (by rintro ⟨-, hc⟩; exact hdup hc),
        if_pos (And.intro hne hhist)] at hd
      refine ⟨_, applyBudget_snd_of_not_valid hd ?_, Or.inr rfl, ?_⟩
      all_goals
        intro hcon
        exact absurd (show ("DUPLICATE_HISTORY" : String) = "VALID" from hcon) (by decide)
  · intro out r' hmem hval hkne
    have hkk : pyStripStr (normCell r'.invoice_number) = normCell r'.invoice_number :=
      pyStripStr_idem _
    have hmemf : r' ∈ out.filter (fun x => x.status = "VALID") :=
      List.mem_filter.mpr ⟨hmem, decide_eq_true hval⟩
    unfold updateHistory
    rw [if_neg (by
      intro hc
      rw [List.isEmpty_iff] at hc
      rw [hc] at hmemf
      exact absurd hmemf (List.not_mem_nil r'))]
    unfold _append_to_history dedupByKey
    refine mem_keys_dedupByKeyAux (List.not_mem_nil _) ?_
    refine List.mem_map.mpr
      ⟨{ invoice_number := pyStripStr (normCell r'.invoice_number),
         po_number := normCell r'.po_number,
         invoice_amount := r'.invoice_amount,
         file_name := r'.file_name, batch_id := b, processed_at := t }, ?_, by
           simpa using hkk⟩
    refine List.mem_filter.mpr ⟨?_, ?_⟩
    · refine List.mem_map.mpr
        ⟨{ invoice_number := normCell r'.invoice_number,
           po_number := normCell r'.po_number,
           invoice_amount := r'.invoice_amount,
           file_name := r'.file_name, batch_id := b, processed_at := t }, ?_, rfl⟩
      exact List.mem_append_right _ (List.mem_map.mpr ⟨r', hmemf, rfl⟩)
    · refine decide_eq_true ?_
      show pyStripStr (normCell r'.invoice_number) ≠ ""
      rw [hkk]
      exact hkne

/-- C4 witness: a single-document run citing `INV-001`, already in history,
against a fresh PO: it is classified `DUPLICATE_HISTORY`, its final status is
not `VALID`, and the `VALID` row of an earlier run is in the written
history. -/
theorem C4_history_duplicates_never_reaccepted_witness :
    (([mkResult "a.pdf" (some ⟨some "PO-2", some "INV-001", some 100, ""⟩)].map
        (fun x => normCell x.invoice_number)).count (normCell (mkResult "a.pdf"
          (some ⟨some "PO-2", some "INV-001", some 100, ""⟩)).invoice_number) ≤ 1 →
      ((applyDupDetection ["INV-001"]
        [mkResult "a.pdf" (some ⟨some "PO-2", some "INV-001", some 100, ""⟩)])[0]?).map
          (fun x => x.status) = some "DUPLICATE_HISTORY") ∧
    (∃ r', ((runReconciliation ["INV-001"] [⟨"PO-2", 1000, 0, 1000⟩]
        [mkResult "a.pdf" (some ⟨some "PO-2", some "INV-001", some 100, ""⟩)]).2)[0]? =
          some r' ∧
      (r'.status = "DUPLICATE" ∨ r'.status = "DUPLICATE_HISTORY") ∧
      r'.status ≠ "VALID") ∧
    (∀ (out : List BatchRow) (r' : BatchRow), r' ∈ out →
      r'.status = "VALID" → normCell r'.invoice_number ≠ "" →
      normCell r'.invoice_number ∈
        (updateHistory [] "b0" "t0" out).map (fun hr => hr.invoice_number)) :=
  C4_history_duplicates_never_reaccepted ["INV-001"] [⟨"PO-2", 1000, 0, 1000⟩]
    [mkResult "a.pdf" (some ⟨some "PO-2", some "INV-001", some 100, ""⟩)]
    [] "b0" "t0" 0
    (mkResult "a.pdf" (some ⟨some "PO-2", some "INV-001", some 100, ""⟩))
    (by decide) (by decide) (by decide)

/-- Rows of the normalized-and-filtered history concatenation are fixed points
of the normalization and have a non-empty key. -/
theorem normFilter_fixed {l : List HistoryRow} {r : HistoryRow}
    (hr : r ∈ (l.map (fun x =>
        { x with invoice_number := pyStripStr x.invoice_number })).filter
      (fun x => x.invoice_number ≠ "")) :
    pyStripStr r.invoice_number = r.invoice_number ∧ r.invoice_number ≠ "" := by
  obtain ⟨hm, hp⟩ := List.mem_filter.mp hr
  obtain ⟨x, _, hfx⟩ := List.mem_map.mp hm
  refine ⟨?_, of_decide_eq_true hp⟩
  rw [← hfx]
  simpa using pyStripStr_idem x.invoice_number

/-- C5: the history merge keeps the first occurrence per invoice-number key and
is idempotent. (a) Whenever the normalized pre-existing history holds a row
`r` for key `k` (`_append_to_history existing []` is exactly the normalized
deduplicated pre-existing history), merging any new rows still yields that
pre-existing row for `k`: on key collision the earlier row wins. (b) Merging
the same rows a second time — replaying an already-recorded run — leaves the
history content unchanged. -/
theorem C5_history_merge_first_wins_and_idempotent
    (existing new_rows : List HistoryRow) :
    (∀ (k : String) (r : HistoryRow),
      (_append_to_history existing []).find? (fun x => x.invoice_number = k) = some r →
      (_append_to_history existing new_rows).find? (fun x => x.invoice_number = k) =
        some r) ∧
    _append_to_history (_append_to_history existing new_rows) new_rows =
      _append_to_history existing new_rows := by
  constructor
  · intro k r h
    unfold _append_to_history dedupByKey at h ⊢
    rw [find?_dedupByKeyAux (List.not_mem_nil k)] at h ⊢
    rw [List.append_nil] at h
    rw [List.map_append, List.filter_append, List.find?_append, h, Option.or_some]
  · have hfix : ∀ r ∈ _append_to_history existing new_rows,
        pyStripStr r.invoice_number = r.invoice_number ∧ r.invoice_number ≠ "" := by
      intro r hr
      unfold _append_to_history dedupByKey at hr
      exact normFilter_fixed (mem_of_mem_dedupByKeyAux hr)
    have hnodup : ((_append_to_history existing new_rows).map
        (fun r => r.invoice_number)).Nodup := by
      unfold _append_to_history dedupByKey
      exact keys_dedupByKeyAux_nodup.1
    have hdM : dedupByKeyAux (fun r : HistoryRow => r.invoice_number) []
        (_append_to_history existing new_rows) = _append_to_history existing new_rows :=
      dedupByKeyAux_eq_self hnodup (fun k _ hc => List.not_mem_nil k hc)
    have hFM : ((_append_to_history existing new_rows).map (fun x =>
        { x with invoice_number := pyStripStr x.invoice_number })).filter
          (fun x => x.invoice_number ≠ "") = _append_to_history existing new_rows := by
      rw [List.map_congr_left (g := id) (fun a ha => ?_), List.map_id]
      · exact List.filter_eq_self.mpr (fun a ha => decide_eq_true (hfix a ha).2)
      · rw [id_eq, (hfix a ha).1]
    show dedupByKeyAux (fun r : HistoryRow => r.invoice_number) []
        ((((_append_to_history existing new_rows) ++ new_rows).map (fun x =>
          { x with invoice_number := pyStripStr x.invoice_number })).filter
            (fun x => x.invoice_number ≠ "")) = _append_to_history existing new_rows
    rw [List.map_append, List.filter_append, hFM]
    rw [dedupByKeyAux_append_absorb (fun k hk => ?_)]
    · exact hdM
    · right
      rw [hdM]
      have hk2 : k ∈ (((existing ++ new_rows).map (fun x =>
          { x with invoice_number := pyStripStr x.invoice_number })).filter
            (fun x => x.invoice_number ≠ "")).map (fun r => r.invoice_number) := by
        rw [List.map_append, List.filter_append, List.map_append]
        exact List.mem_append_right _ hk
      exact mem_keys_dedupByKeyAux (List.not_mem_nil k) hk2

/-- C9 counterexample: three prod-run invoices that all carry an invoice
number and are no duplicates — one with no PO number, one with no amount, one
with amount −5 — end the run as `NEEDS_REVIEW`, not as the `INVALID` the claim
asserts. -/
theorem C9_prod_assigns_needs_review_not_invalid :
    (runReconciliation [] [⟨"PO-1", 1000, 0, 1000⟩]
        [mkResult "a.pdf" (some ⟨none, some "INV-7", some 100, ""⟩),
         mkResult "b.pdf" (some ⟨some "PO-1", some "INV-8", none, ""⟩),
         mkResult "c.pdf" (some ⟨some "PO-1", some "INV-9", some (-5), ""⟩)]).2.map
      (fun r => (r.status, r.reason)) =
      [("NEEDS_REVIEW", "PO number missing"),
       ("NEEDS_REVIEW", "Invoice amount missing"),
       ("NEEDS_REVIEW", "Invalid PO number or invoice amount")] ∧
    (("NEEDS_REVIEW" : String) ≠ "INVALID") := by
  decide

/-- C9 as amended: for an invoice that has an invoice number and is not flagged
as a duplicate, a missing PO number or a missing or non-positive amount is a
terminal condition checked before the PO-lookup and budget checks and never
touches the ledger — but the status it is given differs per engine: in
`process_invoice` of src/run_batch.py it is `INVALID` (as the claim says),
while in `run_batch_prod` it is `NEEDS_REVIEW` (for a missing PO number or
missing amount at classification time, and for an amount ≤ 0 in the budget
pass). -/
theorem C9_missing_po_or_amount_terminal_statuses
    (df_po : List POAgg) (seen : List (Option String × String)) (b t fn : String)
    (po : Option String) (inv : String) (amt : Option ℚ)
    (po_df : List PORow) (f : ExtractedFields) (r : BatchRow)
    (hinv : inv ≠ "")
    (hseen : (po, inv) ∉ seen)
    (hbad : strFalsy po = true ∨ amt = none ∨ amt.getD 0 ≤ 0)
    (hfinv : ¬strFalsy f.invoice_number = true)
    (hfbad : strFalsy f.po_number = true ∨ f.invoice_amount = none)
    (hr : r.status = "VALID") (hramt : r.invoice_amount.getD 0 ≤ 0) :
    ((process_invoice df_po (.ok (po, some inv, amt)) seen b t fn).1.status =
        "INVALID" ∧
      (process_invoice df_po (.ok (po, some inv, amt)) seen b t fn).2.1 = df_po) ∧
    ((mkResult fn (some f)).status = "NEEDS_REVIEW" ∧
      (mkResult fn (some f)).status ≠ "INVALID") ∧
    ((budgetOne po_df r).2.status = "NEEDS_REVIEW" ∧ (budgetOne po_df r).1 = po_df) := by
  refine ⟨?_, ?_, ?_⟩
  · simp only [process_invoice]
    rw [if_neg (by simpa [strFalsy] using hinv)]
    rw [if_neg (fun hc => hseen hc.2)]
    by_cases hpo : strFalsy po = true
    · rw [if_pos hpo]
      exact ⟨rfl, rfl⟩
    · rw [if_neg hpo]
      have hamt : (Option.getD amt 0 : ℚ) ≤ 0 := by
        rcases hbad with h | h | h
        · exact absurd h hpo
        · rw [h]; exact le_refl 0
        · exact h
      rw [if_pos hamt]
      exact ⟨rfl, rfl⟩
  · have core : (mkResult fn (some f)).status = "NEEDS_REVIEW" := by
      simp only [mkResult]
      rw [if_neg hfinv]
      by_cases hfp : strFalsy f.po_number = true
      · rw [if_pos hfp]
      · rcases hfbad with h | h
        · exact absurd h hfp
        · rw [if_neg hfp, if_pos h]
    refine ⟨core, ?_⟩
    rw [core]
    intro h
    exact absurd h (by decide)
  · simp only [budgetOne]
    rw [if_neg (fun hn => hn hr), if_pos (Or.inr hramt)]
    exact ⟨rfl, rfl⟩

/-- C9 witness: the amended statement at concrete inputs — a run_batch.py
invoice with no PO number, a prod extraction with no PO number, and a prod
`VALID` row whose amount is −5. -/
theorem C9_missing_po_or_amount_terminal_statuses_witness :
    ((process_invoice [] (.ok (none, some "INV-9", some 100)) [] "b" "t" "a.pdf").1.status =
        "INVALID" ∧
      (process_invoice [] (.ok (none, some "INV-9", some 100)) [] "b" "t" "a.pdf").2.1 =
        ([] : List POAgg)) ∧
    ((mkResult "a.pdf" (some ⟨none, some "INV-9", some 100, ""⟩)).status =
        "NEEDS_REVIEW" ∧
      (mkResult "a.pdf" (some ⟨none, some "INV-9", some 100, ""⟩)).status ≠ "INVALID") ∧
    ((budgetOne []
        (mkResult "c.pdf" (some ⟨some "PO-1", some "INV-8", some (-5), ""⟩))).2.status =
        "NEEDS_REVIEW" ∧
      (budgetOne []
        (mkResult "c.pdf" (some ⟨some "PO-1", some "INV-8", some (-5), ""⟩))).1 =
        ([] : List PORow)) :=
  C9_missing_po_or_amount_terminal_statuses [] [] "b" "t" "a.pdf"
    none "INV-9" (some 100) []
    ⟨none, some "INV-9", some 100, ""⟩
    (mkResult "c.pdf" (some ⟨some "PO-1", some "INV-8", some (-5), ""⟩))
    (by decide) (by decide) (by decide) (by decide) (by decide)
    (by decide) (by decide)

theorem length_filter_eq_one_of_nodup {α : Type} [DecidableEq α] {l : List α} {k : α}
    (hnd : l.Nodup) (hk : k ∈ l) : (l.filter (fun x => x = k)).length = 1 := by
  induction l with
  | nil => cases hk
  | cons a as ih =>
    rw [List.filter_cons]
    obtain ⟨hna, hnd2⟩ := List.nodup_cons.mp hnd
    by_cases hak : a = k
    · rw [if_pos (decide_eq_true hak)]
      subst hak
      have hzero : as.filter (fun x => x = a) = [] :=
        List.filter_eq_nil_iff.mpr (fun x hx hc => hna ((of_decide_eq_true hc) ▸ hx))
      rw [List.length_cons, hzero]
      rfl
    · have hkas : k ∈ as := by
        rcases List.mem_cons.mp hk with h | h
        · exact absurd h.symm hak
        · exact h
      rw [if_neg (by simpa using hak)]
      exact ih hnd2 hkas

theorem find?_key_map {β γ : Type} [DecidableEq β] {mk : β → γ} {keyf : γ → β}
    (hkey : ∀ b, keyf (mk b) = b) :
    ∀ {l : List β} {k : β}, k ∈ l →
      (l.map mk).find? (fun a => keyf a = k) = some (mk k) := by
  intro l
  induction l with
  | nil => intro k hk; cases hk
  | cons a as ih =>
    intro k hk
    rw [List.map_cons]
    by_cases hak : a = k
    · rw [List.find?_cons_of_pos _ (by simp [hkey, hak]), hak]
    · rw [List.find?_cons_of_neg _ (by simp [hkey, hak])]
      refine ih ?_
      rcases List.mem_cons.mp hk with h | h
      · exact absurd h.symm hak
      · exact h

/-- C8: `load_po_register` aggregates the register to one budget record per
distinct normalized PO number — `total_po_value` the maximum observed value of
that PO's rows, `amount_already_invoiced` their sum, `remaining_budget` the
difference. Loading succeeds whenever the required columns are present; a
register with two rows for one PO (totals 1000 and 1000, already-invoiced 200
and 300) yields the single record (1000, 500, 500); and loading fails fast
with a structural error when a required column is absent. -/
theorem C8_register_aggregation_one_record_per_po
    (f : RegisterFrame)
    (hcols : ∀ c ∈ PO_REQUIRED_COLS, c ∈ f.cols)
    (k : Option String)
    (hk : k ∈ f.rows.map (fun r => _normalize_po r.PO_Number)) :
    ((∃ res, load_po_register f = .ok res) ∧
     (∀ res, load_po_register f = .ok res →
        (res.filter (fun a => a.PO_Number = k)).length = 1 ∧
        res.find? (fun a => a.PO_Number = k) = some
          { PO_Number := k,
            Total_PO_Value := groupMax ((f.rows.filter (fun r =>
              _normalize_po r.PO_Number = k)).map (fun r =>
                (safe_float r.Total_PO_Value).getD 0)),
            Amount_Already_Invoiced := ((f.rows.filter (fun r =>
              _normalize_po r.PO_Number = k)).map (fun r =>
                (safe_float r.Amount_Already_Invoiced).getD 0)).sum,
            Remaining_Budget := groupMax ((f.rows.filter (fun r =>
              _normalize_po r.PO_Number = k)).map (fun r =>
                (safe_float r.Total_PO_Value).getD 0)) -
              ((f.rows.filter (fun r =>
                _normalize_po r.PO_Number = k)).map (fun r =>
                  (safe_float r.Amount_Already_Invoiced).getD 0)).sum })) ∧
    (load_po_register ⟨["PO_Number", "Total_PO_Value"], []⟩ =
      .error "Missing columns in PO_Register.xlsx") ∧
    (load_po_register ⟨PO_REQUIRED_COLS,
        [⟨some "PO-1", some "1000", some "200"⟩,
         ⟨some "PO-1", some "1000", some "300"⟩]⟩ =
      .ok [⟨some "PO-1", 1000, 500, 500⟩]) := by
  have hmiss : PO_REQUIRED_COLS.filter (fun c => c ∉ f.cols) = [] :=
    List.filter_eq_nil_iff.mpr (fun c hc => by simp [hcols c hc])
  refine ⟨⟨?_, ?_⟩, by decide, by decide⟩
  · cases hres : load_po_register f with
    | error e =>
      exfalso
      simp only [load_po_register] at hres
      rw [hmiss, if_neg (fun hc => hc rfl)] at hres
      exact Except.noConfusion hres
    | ok res => exact ⟨res, rfl⟩
  · intro res hres
    simp only [load_po_register] at hres
    rw [hmiss, if_neg (fun hc => hc rfl)] at hres
    have hres2 := Except.ok.inj hres
    subst hres2
    have hk2 : k ∈ ((f.rows.map (fun r =>
        (_normalize_po r.PO_Number,
         (safe_float r.Total_PO_Value).getD 0,
         (safe_float r.Amount_Already_Invoiced).getD 0))).map
          (fun t => t.1)) := by
      rw [List.map_map]
      exact hk
    have hkeys : k ∈ dedupByKey id ((f.rows.map (fun r =>
        (_normalize_po r.PO_Number,
         (safe_float r.Total_PO_Value).getD 0,
         (safe_float r.Amount_Already_Invoiced).getD 0))).map (fun t => t.1)) := by
      have hm := @mem_keys_dedupByKeyAux _ _ _ (id : Option String → Option String) _ _ _
        (List.not_mem_nil k) (by rw [List.map_id]; exact hk2)
      rw [List.map_id] at hm
      exact hm
    have hnodup : (dedupByKey id ((f.rows.map (fun r =>
        (_normalize_po r.PO_Number,
         (safe_float r.Total_PO_Value).getD 0,
         (safe_float r.Amount_Already_Invoiced).getD 0))).map
          (fun t => t.1))).Nodup := by
      have hn := @keys_dedupByKeyAux_nodup _ _ _ (id : Option String → Option String) []
        ((f.rows.map (fun r =>
          (_normalize_po r.PO_Number,
           (safe_float r.Total_PO_Value).getD 0,
           (safe_float r.Amount_Already_Invoiced).getD 0))).map (fun t => t.1))
      rw [List.map_id] at hn
      exact hn.1
    constructor
    · rw [List.filter_map, List.length_map]
      exact length_filter_eq_one_of_nodup hnodup hkeys
    · rw [find?_key_map (fun b => rfl) hkeys, List.filter_map]
      simp only [List.map_map]
      rfl

/-- C8 witness: the aggregation statement applied to the concrete two-row
register for `PO-1` (totals 1000 and 1000, already-invoiced 200 and 300). -/
theorem C8_register_aggregation_one_record_per_po_witness :
    (let f0 : RegisterFrame := ⟨PO_REQUIRED_COLS,
        [⟨some "PO-1", some "1000", some "200"⟩,
         ⟨some "PO-1", some "1000", some "300"⟩]⟩
     ((∃ res, load_po_register f0 = .ok res) ∧
      (∀ res, load_po_register f0 = .ok res →
        (res.filter (fun a => a.PO_Number = some "PO-1")).length = 1 ∧
        res.find? (fun a => a.PO_Number = some "PO-1") = some
          { PO_Number := some "PO-1",
            Total_PO_Value := groupMax ((f0.rows.filter (fun r =>
              _normalize_po r.PO_Number = some "PO-1")).map (fun r =>
                (safe_float r.Total_PO_Value).getD 0)),
            Amount_Already_Invoiced := ((f0.rows.filter (fun r =>
              _normalize_po r.PO_Number = some "PO-1")).map (fun r =>
                (safe_float r.Amount_Already_Invoiced).getD 0)).sum,
            Remaining_Budget := groupMax ((f0.rows.filter (fun r =>
              _normalize_po r.PO_Number = some "PO-1")).map (fun r =>
                (safe_float r.Total_PO_Value).getD 0)) -
              ((f0.rows.filter (fun r =>
                _normalize_po r.PO_Number = some "PO-1")).map (fun r =>
                  (safe_float r.Amount_Already_Invoiced).getD 0)).sum })) ∧
      (load_po_register ⟨["PO_Number", "Total_PO_Value"], []⟩ =
        .error "Missing columns in PO_Register.xlsx") ∧
      (load_po_register ⟨PO_REQUIRED_COLS,
          [⟨some "PO-1", some "1000", some "200"⟩,
           ⟨some "PO-1", some "1000", some "300"⟩]⟩ =
        .ok [⟨some "PO-1", 1000, 500, 500⟩])) := by
  exact C8_register_aggregation_one_record_per_po
    ⟨PO_REQUIRED_COLS,
      [⟨some "PO-1", some "1000", some "200"⟩,
       ⟨some "PO-1", some "1000", some "300"⟩]⟩
    (by decide) (some "PO-1") (by decide)

/-! ### C6 auxiliary lemmas: character classes, cleaning, rfind -/

theorem digit_not_space {x : Char} (h : x.isDigit = true) : isPySpace x = false := by
  cases hsp : isPySpace x with
  | false => rfl
  | true =>
    exfalso
    have hsp6 : x = ' ' ∨ x = '\t' ∨ x = '\n' ∨ x = '\x0d' ∨ x = '\x0b' ∨ x = '\x0c' := by
      simp only [isPySpace, Bool.or_eq_true, decide_eq_true_eq] at hsp
      tauto
    rcases hsp6 with h1 | h1 | h1 | h1 | h1 | h1 <;> (subst h1; exact absurd h (by decide))

theorem digit_ne {x : Char} (h : x.isDigit = true) :
    x ≠ ' ' ∧ x ≠ ',' ∧ x ≠ '.' ∧ x ≠ '-' := by
  refine ⟨fun hc => ?_, fun hc => ?_, fun hc => ?_, fun hc => ?_⟩ <;>
    (subst hc; exact absurd h (by decide))

theorem dropWhile_eq_self_of {p : Char → Bool} {l : List Char}
    (h : ∀ x ∈ l, p x = false) : l.dropWhile p = l := by
  cases l with
  | nil => rfl
  | cons a as => simp [List.dropWhile_cons, h a (List.mem_cons_self a as)]

theorem pyStrip_eq_self_of {l : List Char} (h : ∀ x ∈ l, isPySpace x = false) :
    pyStrip l = l := by
  unfold pyStrip
  rw [dropWhile_eq_self_of h,
    dropWhile_eq_self_of (fun x hx => h x (List.mem_reverse.mp hx)),
    List.reverse_reverse]

theorem hasChar_of_mem {l : List Char} {c : Char} (h : c ∈ l) : hasChar l c = true := by
  unfold hasChar
  rw [List.any_eq_true]
  exact ⟨c, h, by simp⟩

theorem hasChar_eq_false_of_not_mem {l : List Char} {c : Char} (h : c ∉ l) :
    hasChar l c = false := by
  unfold hasChar
  rw [List.any_eq_false]
  intro x hx
  simp only [decide_eq_true_eq]
  intro hc
  exact h (hc ▸ hx)

theorem findIdx?_append_none {p : Char → Bool} :
    ∀ (l₁ l₂ : List Char) (i : Nat), (∀ x ∈ l₁, p x = false) →
      List.findIdx? p (l₁ ++ l₂) i = List.findIdx? p l₂ (i + l₁.length) := by
  intro l₁
  induction l₁ with
  | nil => intro l₂ i _; simp
  | cons a as ih =>
    intro l₂ i h
    rw [List.cons_append, List.findIdx?_cons, if_neg (by
      rw [h a (List.mem_cons_self a as)]
      exact Bool.false_ne_true)]
    rw [ih l₂ (i + 1) (fun x hx => h x (List.mem_cons_of_mem a hx))]
    congr 1
    rw [List.length_cons]
    omega

/-- `s.rfind(ch)` on a list whose last occurrence of `ch` is followed exactly
by `y`: the index of that occurrence. -/
theorem rfindChar_append_last (x y : List Char) (ch : Char) (hy : ch ∉ y) :
    rfindChar (x ++ ch :: y) ch = (x.length : Int) := by
  unfold rfindChar
  have hrev : (x ++ ch :: y).reverse = y.reverse ++ ch :: x.reverse := by
    rw [List.reverse_append, List.reverse_cons, List.append_assoc,
      List.singleton_append]
  rw [hrev, findIdx?_append_none y.reverse (ch :: x.reverse) 0 (fun z hz =>
    decide_eq_false (fun (hc : z = ch) => hy (hc ▸ List.mem_reverse.mp hz)))]
  rw [List.findIdx?_cons, if_pos (by simp)]
  simp only [Option.map_some', Option.getD_some]
  rw [List.length_append, List.length_cons, List.length_reverse]
  push_cast
  omega

theorem not_mem_of_all_digit {l : List Char} (hl : ∀ x ∈ l, x.isDigit = true)
    {c : Char} (hc : c.isDigit = false) : c ∉ l := by
  intro hmem
  rw [hl c hmem] at hc
  exact Bool.noConfusion hc

theorem filter_ne_of_all {c : Char} {l : List Char} (h : ∀ x ∈ l, x ≠ c) :
    l.filter (fun x => x ≠ c) = l :=
  List.filter_eq_self.mpr (fun x hx => decide_eq_true (h x hx))

theorem map_commaToDot_of_no_comma {l : List Char} (h : ∀ x ∈ l, x ≠ ',') :
    l.map commaToDot = l := by
  have h2 : l.map commaToDot = l.map id :=
    List.map_congr_left (fun x hx => by simp [commaToDot, h x hx])
  rw [h2, List.map_id]

theorem append_cons_ne_short {a c : List Char} {ch : Char} (ha0 : a ≠ [])
    {r : List Char} (hr : r.length ≤ 1) : a ++ ch :: c ≠ r := by
  intro h
  have hlen := congrArg List.length h
  obtain ⟨a0, a2, rfl⟩ := List.exists_cons_of_ne_nil ha0
  rw [List.cons_append, List.length_cons, List.length_append, List.length_cons] at hlen
  omega

theorem takeWhile_append_all {p : Char → Bool} (d : List Char) (ch : Char) (e : List Char)
    (hd : ∀ x ∈ d, p x = true) (hch : p ch = false) :
    (d ++ ch :: e).takeWhile p = d ∧ (d ++ ch :: e).dropWhile p = ch :: e := by
  induction d with
  | nil => simp [List.takeWhile_cons, List.dropWhile_cons, hch]
  | cons a as ih =>
    have ha := hd a (List.mem_cons_self a as)
    have ih2 := ih (fun x hx => hd x (List.mem_cons_of_mem a hx))
    simp [List.cons_append, List.takeWhile_cons, List.dropWhile_cons, ha, ih2.1, ih2.2]

theorem pyFloatBody_digits_dot (d e : List Char) (hd0 : d ≠ [])
    (hd : ∀ x ∈ d, x.isDigit = true) (he : ∀ x ∈ e, x.isDigit = true) :
    pyFloatBody (d ++ '.' :: e) = some (decVal d e) := by
  have hsplit := takeWhile_append_all (p := Char.isDigit) d '.' e hd (by decide)
  simp only [pyFloatBody]
  rw [hsplit.1, hsplit.2]
  rw [if_neg (List.cons_ne_nil '.' e)]
  have hcond : ('.' :: e).head? = some '.' ∧ ('.' :: e).tail.all Char.isDigit = true ∧
      (¬('.' :: e).tail.isEmpty = true ∨ ¬d.isEmpty = true) := by
    refine ⟨rfl, ?_, Or.inr ?_⟩
    · rw [List.tail_cons, List.all_eq_true]
      exact he
    · simpa using hd0
  have hcond2 : ('.' :: e).head? = some '.' ∧ ('.' :: e).tail.all Char.isDigit = true ∧
      (¬d.isEmpty = true ∨ ¬('.' :: e).tail.isEmpty = true) :=
    ⟨hcond.1, hcond.2.1, hcond.2.2.symm⟩
  rw [if_pos hcond2]
  rfl

theorem pyFloat_digits_dot (d e : List Char) (hd0 : d ≠ [])
    (hd : ∀ x ∈ d, x.isDigit = true) (he : ∀ x ∈ e, x.isDigit = true) :
    pyFloat (d ++ '.' :: e) = some (decVal d e) := by
  obtain ⟨d0, d2, rfl⟩ := List.exists_cons_of_ne_nil hd0
  have hne : ((d0 :: d2) ++ '.' :: e).head? ≠ some '-' := by
    rw [List.cons_append, List.head?_cons]
    intro hcon
    have hd0d : d0 = '-' := by injection hcon
    exact (digit_ne (hd d0 (List.mem_cons_self d0 d2))).2.2.2 hd0d
  simp only [pyFloat]
  rw [if_neg hne]
  exact pyFloatBody_digits_dot _ _ (List.cons_ne_nil d0 d2) hd he

theorem all_mem_append {P : Char → Prop} {l₁ l₂ : List Char}
    (h₁ : ∀ x ∈ l₁, P x) (h₂ : ∀ x ∈ l₂, P x) : ∀ x ∈ l₁ ++ l₂, P x := by
  intro x hx
  rcases List.mem_append.mp hx with h | h
  · exact h₁ x h
  · exact h₂ x h

theorem all_mem_cons {P : Char → Prop} {c : Char} {l : List Char}
    (hc : P c) (h : ∀ x ∈ l, P x) : ∀ x ∈ c :: l, P x := by
  intro x hx
  rcases List.mem_cons.mp hx with h2 | h2
  · exact h2 ▸ hc
  · exact h x h2

theorem append_cons_ne_nil (a : List Char) (ch : Char) (c : List Char) :
    a ++ ch :: c ≠ [] := by
  intro h
  have hlen := congrArg List.length h
  rw [List.length_append, List.length_cons, List.length_nil] at hlen
  omega

theorem pyStrip_of_mix {l : List Char}
    (hmix : ∀ x ∈ l, x.isDigit = true ∨ x = ',' ∨ x = '.') : pyStrip l = l :=
  pyStrip_eq_self_of (fun x hx => by
    rcases hmix x hx with h | h | h
    · exact digit_not_space h
    · subst h; decide
    · subst h; decide)

/-- The cleaning phase of `_parse_amount` (strip, keep digits and separators,
drop spaces) is the identity on a list of digits and separators. -/
theorem clean_EI {l : List Char} (hmix : ∀ x ∈ l, x.isDigit = true ∨ x = ',' ∨ x = '.') :
    ((pyStrip l).filter keepAmountCharEI).filter (fun c => c ≠ ' ') = l := by
  have hf1 : l.filter keepAmountCharEI = l := List.filter_eq_self.mpr (fun x hx => by
    rcases hmix x hx with h | h | h
    · simp [keepAmountCharEI, h]
    · subst h; decide
    · subst h; decide)
  have hf2 : l.filter (fun c => c ≠ ' ') = l := List.filter_eq_self.mpr (fun x hx => by
    rcases hmix x hx with h | h | h
    · exact decide_eq_true (digit_ne h).1
    · subst h; decide
    · subst h; decide)
  rw [pyStrip_of_mix hmix, hf1, hf2]

/-- The regex substitution of `safe_float` (keep digits and separators) is the
identity on a list of digits and separators. -/
theorem filter_RB_of_mix {l : List Char}
    (hmix : ∀ x ∈ l, x.isDigit = true ∨ x = ',' ∨ x = '.') :
    l.filter keepAmountCharRB = l :=
  List.filter_eq_self.mpr (fun x hx => by
    rcases hmix x hx with h | h | h
    · simp [keepAmountCharRB, h]
    · subst h; decide
    · subst h; decide)

/-- `_parse_amount` where both separators occur and `.` occurs last: the comma
is stripped as a thousands separator and the dot is the decimal point. -/
theorem parse_amount_dot_last (a b c : List Char) (ha0 : a ≠ [])
    (ha : ∀ x ∈ a, x.isDigit = true) (hb : ∀ x ∈ b, x.isDigit = true)
    (hc : ∀ x ∈ c, x.isDigit = true) :
    _parse_amount (String.mk (a ++ ',' :: b ++ '.' :: c)) = some (decVal (a ++ b) c) := by
  have hmix : ∀ x ∈ a ++ ',' :: b ++ '.' :: c, x.isDigit = true ∨ x = ',' ∨ x = '.' :=
    all_mem_append
      (all_mem_append (fun x hx => Or.inl (ha x hx))
        (all_mem_cons (Or.inr (Or.inl rfl)) (fun x hx => Or.inl (hb x hx))))
      (all_mem_cons (Or.inr (Or.inr rfl)) (fun x hx => Or.inl (hc x hx)))
  simp only [_parse_amount]
  rw [if_neg (append_cons_ne_nil (a ++ ',' :: b) '.' c), clean_EI hmix]
  have hmc : (',' : Char) ∈ a ++ ',' :: b ++ '.' :: c :=
    List.mem_append.mpr (Or.inl (List.mem_append.mpr (Or.inr (List.mem_cons_self ',' b))))
  have hmd : ('.' : Char) ∈ a ++ ',' :: b ++ '.' :: c :=
    List.mem_append.mpr (Or.inr (List.mem_cons_self '.' c))
  rw [hasChar_of_mem hmc, hasChar_of_mem hmd, if_pos (by decide)]
  have hnc : (',' : Char) ∉ b ++ '.' :: c := by
    intro hmem
    rcases List.mem_append.mp hmem with h | h
    · exact absurd (hb ',' h) (by decide)
    · rcases List.mem_cons.mp h with h | h
      · exact absurd h (by decide)
      · exact absurd (hc ',' h) (by decide)
  have hrc : rfindChar (a ++ ',' :: b ++ '.' :: c) ',' = (a.length : Int) := by
    have heq : a ++ ',' :: b ++ '.' :: c = a ++ ',' :: (b ++ '.' :: c) := by
      rw [List.append_assoc, List.cons_append]
    rw [heq]
    exact rfindChar_append_last a (b ++ '.' :: c) ',' hnc
  have hrd : rfindChar (a ++ ',' :: b ++ '.' :: c) '.' = ((a ++ ',' :: b).length : Int) :=
    rfindChar_append_last (a ++ ',' :: b) c '.' (not_mem_of_all_digit hc (by decide))
  have hlt : ¬((a.length : Int) > ((a ++ ',' :: b).length : Int)) := by
    rw [List.length_append, List.length_cons]
    push_cast
    omega
  rw [hrc, hrd, if_neg hlt]
  have hfil : (a ++ ',' :: b ++ '.' :: c).filter (fun x => x ≠ ',') = a ++ b ++ '.' :: c := by
    rw [List.filter_append, List.filter_append, List.filter_cons, if_neg (by decide),
      List.filter_cons, if_pos (by decide),
      filter_ne_of_all (fun x hx => (digit_ne (ha x hx)).2.1),
      filter_ne_of_all (fun x hx => (digit_ne (hb x hx)).2.1),
      filter_ne_of_all (fun x hx => (digit_ne (hc x hx)).2.1)]
  rw [hfil]
  exact pyFloat_digits_dot (a ++ b) c
    (by
      intro h
      have hlen := congrArg List.length h
      rw [List.length_append, List.length_nil] at hlen
      exact ha0 (List.length_eq_zero.mp (by omega)))
    (all_mem_append ha hb) hc

/-- `_parse_amount` where both separators occur and `,` occurs last: the dot
is stripped as a thousands separator and the comma is the decimal point. -/
theorem parse_amount_comma_last (a b c : List Char) (ha0 : a ≠ [])
    (ha : ∀ x ∈ a, x.isDigit = true) (hb : ∀ x ∈ b, x.isDigit = true)
    (hc : ∀ x ∈ c, x.isDigit = true) :
    _parse_amount (String.mk (a ++ '.' :: b ++ ',' :: c)) = some (decVal (a ++ b) c) := by
  have hmix : ∀ x ∈ a ++ '.' :: b ++ ',' :: c, x.isDigit = true ∨ x = ',' ∨ x = '.' :=
    all_mem_append
      (all_mem_append (fun x hx => Or.inl (ha x hx))
        (all_mem_cons (Or.inr (Or.inr rfl)) (fun x hx => Or.inl (hb x hx))))
      (all_mem_cons (Or.inr (Or.inl rfl)) (fun x hx => Or.inl (hc x hx)))
  simp only [_parse_amount]
  rw [if_neg (append_cons_ne_nil (a ++ '.' :: b) ',' c), clean_EI hmix]
  have hmc : (',' : Char) ∈ a ++ '.' :: b ++ ',' :: c :=
    List.mem_append.mpr (Or.inr (List.mem_cons_self ',' c))
  have hmd : ('.' : Char) ∈ a ++ '.' :: b ++ ',' :: c :=
    List.mem_append.mpr (Or.inl (List.mem_append.mpr (Or.inr (List.mem_cons_self '.' b))))
  rw [hasChar_of_mem hmc, hasChar_of_mem hmd, if_pos (by decide)]
  have hnd : ('.' : Char) ∉ b ++ ',' :: c := by
    intro hmem
    rcases List.mem_append.mp hmem with h | h
    · exact absurd (hb '.' h) (by decide)
    · rcases List.mem_cons.mp h with h | h
      · exact absurd h (by decide)
      · exact absurd (hc '.' h) (by decide)
  have hrc : rfindChar (a ++ '.' :: b ++ ',' :: c) ',' = ((a ++ '.' :: b).length : Int) :=
    rfindChar_append_last (a ++ '.' :: b) c ',' (not_mem_of_all_digit hc (by decide))
  have hrd : rfindChar (a ++ '.' :: b ++ ',' :: c) '.' = (a.length : Int) := by
    have heq : a ++ '.' :: b ++ ',' :: c = a ++ '.' :: (b ++ ',' :: c) := by
      rw [List.append_assoc, List.cons_append]
    rw [heq]
    exact rfindChar_append_last a (b ++ ',' :: c) '.' hnd
  have hgt : ((a ++ '.' :: b).length : Int) > (a.length : Int) := by
    rw [List.length_append, List.length_cons]
    push_cast
    omega
  rw [hrc, hrd, if_pos hgt]
  have hfil : (a ++ '.' :: b ++ ',' :: c).filter (fun x => x ≠ '.') = a ++ b ++ ',' :: c := by
    rw [List.filter_append, List.filter_append, List.filter_cons, if_neg (by decide),
      List.filter_cons, if_pos (by decide),
      filter_ne_of_all (fun x hx => (digit_ne (ha x hx)).2.2.1),
      filter_ne_of_all (fun x hx => (digit_ne (hb x hx)).2.2.1),
      filter_ne_of_all (fun x hx => (digit_ne (hc x hx)).2.2.1)]
  have hmap : (a ++ b ++ ',' :: c).map commaToDot = a ++ b ++ '.' :: c := by
    rw [List.map_append, List.map_append, List.map_cons,
      show commaToDot ',' = '.' from rfl,
      map_commaToDot_of_no_comma (fun x hx => (digit_ne (ha x hx)).2.1),
      map_commaToDot_of_no_comma (fun x hx => (digit_ne (hb x hx)).2.1),
      map_commaToDot_of_no_comma (fun x hx => (digit_ne (hc x hx)).2.1)]
  rw [hfil, hmap]
  exact pyFloat_digits_dot (a ++ b) c
    (by
      intro h
      have hlen := congrArg List.length h
      rw [List.length_append, List.length_nil] at hlen
      exact ha0 (List.length_eq_zero.mp (by omega)))
    (all_mem_append ha hb) hc

/-- `_parse_amount` where only `,` occurs: the comma is the decimal point. -/
theorem parse_amount_only_comma (a c : List Char) (ha0 : a ≠ [])
    (ha : ∀ x ∈ a, x.isDigit = true) (hc : ∀ x ∈ c, x.isDigit = true) :
    _parse_amount (String.mk (a ++ ',' :: c)) = some (decVal a c) := by
  have hmix : ∀ x ∈ a ++ ',' :: c, x.isDigit = true ∨ x = ',' ∨ x = '.' :=
    all_mem_append (fun x hx => Or.inl (ha x hx))
      (all_mem_cons (Or.inr (Or.inl rfl)) (fun x hx => Or.inl (hc x hx)))
  simp only [_parse_amount]
  rw [if_neg (append_cons_ne_nil a ',' c), clean_EI hmix]
  have hmc : (',' : Char) ∈ a ++ ',' :: c :=
    List.mem_append.mpr (Or.inr (List.mem_cons_self ',' c))
  have hnd : ('.' : Char) ∉ a ++ ',' :: c := by
    intro hmem
    rcases List.mem_append.mp hmem with h | h
    · exact not_mem_of_all_digit ha (by decide) h
    · rcases List.mem_cons.mp h with h | h
      · exact absurd h (by decide)
      · exact not_mem_of_all_digit hc (by decide) h
  rw [hasChar_of_mem hmc, hasChar_eq_false_of_not_mem hnd, if_neg (by decide),
    if_pos (by decide)]
  have hmap : (a ++ ',' :: c).map commaToDot = a ++ '.' :: c := by
    rw [List.map_append, List.map_cons, show commaToDot ',' = '.' from rfl,
      map_commaToDot_of_no_comma (fun x hx => (digit_ne (ha x hx)).2.1),
      map_commaToDot_of_no_comma (fun x hx => (digit_ne (hc x hx)).2.1)]
  rw [hmap]
  exact pyFloat_digits_dot a c ha0 ha hc

/-- The early-exit guard of `safe_float` does not fire on a list holding a
character after a non-empty prefix. -/
theorem guard_false {a c : List Char} {ch : Char} (ha0 : a ≠ []) :
    (decide (a ++ ch :: c = []) || decide (a ++ ch :: c = ['-']) ||
     decide (a ++ ch :: c = ['.']) || decide (a ++ ch :: c = [','])) = false := by
  rw [decide_eq_false (append_cons_ne_short (r := ([] : List Char)) ha0 (by decide)),
    decide_eq_false (append_cons_ne_short (r := ['-']) ha0 (by decide)),
    decide_eq_false (append_cons_ne_short (r := ['.']) ha0 (by decide)),
    decide_eq_false (append_cons_ne_short (r := [',']) ha0 (by decide))]
  rfl

/-- `safe_float` where both separators occur and `.` occurs last: the comma is
stripped as a thousands separator and the dot is the decimal point. -/
theorem safe_float_dot_last (a b c : List Char) (ha0 : a ≠ [])
    (ha : ∀ x ∈ a, x.isDigit = true) (hb : ∀ x ∈ b, x.isDigit = true)
    (hc : ∀ x ∈ c, x.isDigit = true) :
    safe_float (some (String.mk (a ++ ',' :: b ++ '.' :: c))) = some (decVal (a ++ b) c) := by
  have hmix : ∀ x ∈ a ++ ',' :: b ++ '.' :: c, x.isDigit = true ∨ x = ',' ∨ x = '.' :=
    all_mem_append
      (all_mem_append (fun x hx => Or.inl (ha x hx))
        (all_mem_cons (Or.inr (Or.inl rfl)) (fun x hx => Or.inl (hb x hx))))
      (all_mem_cons (Or.inr (Or.inr rfl)) (fun x hx => Or.inl (hc x hx)))
  simp only [safe_float]
  rw [pyStrip_of_mix hmix, if_neg (append_cons_ne_nil (a ++ ',' :: b) '.' c),
    filter_RB_of_mix hmix, guard_false (append_cons_ne_nil a ',' b), if_neg (by decide)]
  have hmc : (',' : Char) ∈ a ++ ',' :: b ++ '.' :: c :=
    List.mem_append.mpr (Or.inl (List.mem_append.mpr (Or.inr (List.mem_cons_self ',' b))))
  have hmd : ('.' : Char) ∈ a ++ ',' :: b ++ '.' :: c :=
    List.mem_append.mpr (Or.inr (List.mem_cons_self '.' c))
  rw [hasChar_of_mem hmc, hasChar_of_mem hmd, if_pos (by decide)]
  have hnc : (',' : Char) ∉ b ++ '.' :: c := by
    intro hmem
    rcases List.mem_append.mp hmem with h | h
    · exact absurd (hb ',' h) (by decide)
    · rcases List.mem_cons.mp h with h | h
      · exact absurd h (by decide)
      · exact absurd (hc ',' h) (by decide)
  have hrc : rfindChar (a ++ ',' :: b ++ '.' :: c) ',' = (a.length : Int) := by
    have heq : a ++ ',' :: b ++ '.' :: c = a ++ ',' :: (b ++ '.' :: c) := by
      rw [List.append_assoc, List.cons_append]
    rw [heq]
    exact rfindChar_append_last a (b ++ '.' :: c) ',' hnc
  have hrd : rfindChar (a ++ ',' :: b ++ '.' :: c) '.' = ((a ++ ',' :: b).length : Int) :=
    rfindChar_append_last (a ++ ',' :: b) c '.' (not_mem_of_all_digit hc (by decide))
  have hlt : ¬((a.length : Int) > ((a ++ ',' :: b).length : Int)) := by
    rw [List.length_append, List.length_cons]
    push_cast
    omega
  rw [hrc, hrd, if_neg hlt]
  have hfil : (a ++ ',' :: b ++ '.' :: c).filter (fun x => x ≠ ',') = a ++ b ++ '.' :: c := by
    rw [List.filter_append, List.filter_append, List.filter_cons, if_neg (by decide),
      List.filter_cons, if_pos (by decide),
      filter_ne_of_all (fun x hx => (digit_ne (ha x hx)).2.1),
      filter_ne_of_all (fun x hx => (digit_ne (hb x hx)).2.1),
      filter_ne_of_all (fun x hx => (digit_ne (hc x hx)).2.1)]
  rw [hfil]
  exact pyFloat_digits_dot (a ++ b) c
    (by
      intro h
      have hlen := congrArg List.length h
      rw [List.length_append, List.length_nil] at hlen
      exact ha0 (List.length_eq_zero.mp (by omega)))
    (all_mem_append ha hb) hc

/-- `safe_float` where both separators occur and `,` occurs last: the dot is
stripped as a thousands separator and the comma is the decimal point. -/
theorem safe_float_comma_last (a b c : List Char) (ha0 : a ≠ [])
    (ha : ∀ x ∈ a, x.isDigit = true) (hb : ∀ x ∈ b, x.isDigit = true)
    (hc : ∀ x ∈ c, x.isDigit = true) :
    safe_float (some (String.mk (a ++ '.' :: b ++ ',' :: c))) = some (decVal (a ++ b) c) := by
  have hmix : ∀ x ∈ a ++ '.' :: b ++ ',' :: c, x.isDigit = true ∨ x = ',' ∨ x = '.' :=
    all_mem_append
      (all_mem_append (fun x hx => Or.inl (ha x hx))
        (all_mem_cons (Or.inr (Or.inr rfl)) (fun x hx => Or.inl (hb x hx))))
      (all_mem_cons (Or.inr (Or.inl rfl)) (fun x hx => Or.inl (hc x hx)))
  simp only [safe_float]
  rw [pyStrip_of_mix hmix, if_neg (append_cons_ne_nil (a ++ '.' :: b) ',' c),
    filter_RB_of_mix hmix, guard_false (append_cons_ne_nil a '.' b), if_neg (by decide)]
  have hmc : (',' : Char) ∈ a ++ '.' :: b ++ ',' :: c :=
    List.mem_append.mpr (Or.inr (List.mem_cons_self ',' c))
  have hmd : ('.' : Char) ∈ a ++ '.' :: b ++ ',' :: c :=
    List.mem_append.mpr (Or.inl (List.mem_append.mpr (Or.inr (List.mem_cons_self '.' b))))
  rw [hasChar_of_mem hmc, hasChar_of_mem hmd, if_pos (by decide)]
  have hnd : ('.' : Char) ∉ b ++ ',' :: c := by
    intro hmem
    rcases List.mem_append.mp hmem with h | h
    · exact absurd (hb '.' h) (by decide)
    · rcases List.mem_cons.mp h with h | h
      · exact absurd h (by decide)
      · exact absurd (hc '.' h) (by decide)
  have hrc : rfindChar (a ++ '.' :: b ++ ',' :: c) ',' = ((a ++ '.' :: b).length : Int) :=
    rfindChar_append_last (a ++ '.' :: b) c ',' (not_mem_of_all_digit hc (by decide))
  have hrd : rfindChar (a ++ '.' :: b ++ ',' :: c) '.' = (a.length : Int) := by
    have heq : a ++ '.' :: b ++ ',' :: c = a ++ '.' :: (b ++ ',' :: c) := by
      rw [List.append_assoc, List.cons_append]
    rw [heq]
    exact rfindChar_append_last a (b ++ ',' :: c) '.' hnd
  have hgt : ((a ++ '.' :: b).length : Int) > (a.length : Int) := by
    rw [List.length_append, List.length_cons]
    push_cast
    omega
  rw [hrc, hrd, if_pos hgt]
  have hfil : (a ++ '.' :: b ++ ',' :: c).filter (fun x => x ≠ '.') = a ++ b ++ ',' :: c := by
    rw [List.filter_append, List.filter_append, List.filter_cons, if_neg (by decide),
      List.filter_cons, if_pos (by decide),
      filter_ne_of_all (fun x hx => (digit_ne (ha x hx)).2.2.1),
      filter_ne_of_all (fun x hx => (digit_ne (hb x hx)).2.2.1),
      filter_ne_of_all (fun x hx => (digit_ne (hc x hx)).2.2.1)]
  have hmap : (a ++ b ++ ',' :: c).map commaToDot = a ++ b ++ '.' :: c := by
    rw [List.map_append, List.map_append, List.map_cons,
      show commaToDot ',' = '.' from rfl,
      map_commaToDot_of_no_comma (fun x hx => (digit_ne (ha x hx)).2.1),
      map_commaToDot_of_no_comma (fun x hx => (digit_ne (hb x hx)).2.1),
      map_commaToDot_of_no_comma (fun x hx => (digit_ne (hc x hx)).2.1)]
  rw [hfil, hmap]
  exact pyFloat_digits_dot (a ++ b) c
    (by
      intro h
      have hlen := congrArg List.length h
      rw [List.length_append, List.length_nil] at hlen
      exact ha0 (List.length_eq_zero.mp (by omega)))
    (all_mem_append ha hb) hc

/-- `safe_float` where only `,` occurs: the comma is the decimal point. -/
theorem safe_float_only_comma (a c : List Char) (ha0 : a ≠ [])
    (ha : ∀ x ∈ a, x.isDigit = true) (hc : ∀ x ∈ c, x.isDigit = true) :
    safe_float (some (String.mk (a ++ ',' :: c))) = some (decVal a c) := by
  have hmix : ∀ x ∈ a ++ ',' :: c, x.isDigit = true ∨ x = ',' ∨ x = '.' :=
    all_mem_append (fun x hx => Or.inl (ha x hx))
      (all_mem_cons (Or.inr (Or.inl rfl)) (fun x hx => Or.inl (hc x hx)))
  simp only [safe_float]
  rw [pyStrip_of_mix hmix, if_neg (append_cons_ne_nil a ',' c),
    filter_RB_of_mix hmix, guard_false ha0, if_neg (by decide)]
  have hmc : (',' : Char) ∈ a ++ ',' :: c :=
    List.mem_append.mpr (Or.inr (List.mem_cons_self ',' c))
  have hnd : ('.' : Char) ∉ a ++ ',' :: c := by
    intro hmem
    rcases List.mem_append.mp hmem with h | h
    · exact not_mem_of_all_digit ha (by decide) h
    · rcases List.mem_cons.mp h with h | h
      · exact absurd h (by decide)
      · exact not_mem_of_all_digit hc (by decide) h
  rw [hasChar_of_mem hmc, hasChar_eq_false_of_not_mem hnd, if_neg (by decide),
    if_pos (by decide)]
  have hnodot : ∀ x ∈ a ++ ',' :: c, x ≠ '.' :=
    all_mem_append (fun x hx => (digit_ne (ha x hx)).2.2.1)
      (all_mem_cons (by decide) (fun x hx => (digit_ne (hc x hx)).2.2.1))
  have hmap : (a ++ ',' :: c).map commaToDot = a ++ '.' :: c := by
    rw [List.map_append, List.map_cons, show commaToDot ',' = '.' from rfl,
      map_commaToDot_of_no_comma (fun x hx => (digit_ne (ha x hx)).2.1),
      map_commaToDot_of_no_comma (fun x hx => (digit_ne (hc x hx)).2.1)]
  rw [filter_ne_of_all hnodot, hmap]
  exact pyFloat_digits_dot a c ha0 ha hc

/-- C6: Amount parsing disambiguates locale separators in both engines
(`_parse_amount` of src/extract_invoice.py and `safe_float` of
src/run_batch.py): on digit-group inputs containing both `,` and `.`, the
separator occurring last in the string is the decimal point and the other is
stripped as a thousands separator; an input containing only `,` treats the
comma as the decimal point; concretely `"3 748,50"`, `"3,748.50"` and
`"3.748,50"` all parse to `3748.50`, `"3748"` parses to `3748.0`, and
unparseable residue yields `none`. -/
theorem C6_locale_separator_disambiguation :
    (_parse_amount "3 748,50" = some (3748.5 : ℚ) ∧
     _parse_amount "3,748.50" = some (3748.5 : ℚ) ∧
     _parse_amount "3.748,50" = some (3748.5 : ℚ) ∧
     _parse_amount "3748" = some (3748 : ℚ) ∧
     _parse_amount "1,234,567.89" = some (1234567.89 : ℚ) ∧
     _parse_amount "abc" = none ∧
     safe_float (some "3 748,50") = some (3748.5 : ℚ) ∧
     safe_float (some "3,748.50") = some (3748.5 : ℚ) ∧
     safe_float (some "3.748,50") = some (3748.5 : ℚ) ∧
     safe_float (some "3748") = some (3748 : ℚ) ∧
     safe_float (some "TND 3 748,50") = some (3748.5 : ℚ) ∧
     safe_float (some "abc") = none) ∧
    (∀ a b c : List Char, a ≠ [] → (∀ x ∈ a, x.isDigit = true) →
      (∀ x ∈ b, x.isDigit = true) → (∀ x ∈ c, x.isDigit = true) →
      _parse_amount (String.mk (a ++ ',' :: b ++ '.' :: c)) = some (decVal (a ++ b) c) ∧
      _parse_amount (String.mk (a ++ '.' :: b ++ ',' :: c)) = some (decVal (a ++ b) c) ∧
      safe_float (some (String.mk (a ++ ',' :: b ++ '.' :: c))) = some (decVal (a ++ b) c) ∧
      safe_float (some (String.mk (a ++ '.' :: b ++ ',' :: c))) = some (decVal (a ++ b) c)) ∧
    (∀ a c : List Char, a ≠ [] → (∀ x ∈ a, x.isDigit = true) →
      (∀ x ∈ c, x.isDigit = true) →
      _parse_amount (String.mk (a ++ ',' :: c)) = some (decVal a c) ∧
      safe_float (some (String.mk (a ++ ',' :: c))) = some (decVal a c)) :=
  ⟨by decide,
   fun a b c ha0 ha hb hc =>
     ⟨parse_amount_dot_last a b c ha0 ha hb hc,
      parse_amount_comma_last a b c ha0 ha hb hc,
      safe_float_dot_last a b c ha0 ha hb hc,
      safe_float_comma_last a b c ha0 ha hb hc⟩,
   fun a c ha0 ha hc =>
     ⟨parse_amount_only_comma a c ha0 ha hc, safe_float_only_comma a c ha0 ha hc⟩⟩

end SmartOps
